import Mathlib

/-!
# Verification development for `ian-kent/alexa`

A shallow embedding of the request authentication code of the Go package
`alexa` (`certificate.go`, `request.go`, `application.go`, `response.go`)
together with theorems about it.

Conventions of the embedding

* A Go `string` is a Lean `String`; the library routines that scan strings
  work on the list of characters. For ASCII text (all literals of the
  program are ASCII) a character is a byte.
* A Go `[]byte` is a `List Nat` of byte values.
* A Go call that can panic returns `Except Fault _`; the panic is never
  recovered by the package, so it is an outcome of the exported function.
* Functions of the Go standard library that the package calls are either
  modelled here from the library (URL parsing, time parsing, base64) or are
  parameters: the fields of `Env` (network fetch, PEM, X.509, SHA-1, RSA, the
  clock) and the JSON decoder handed to `ParseRequest`.
-/

namespace Alexa

/-- Unrecovered run-time panics of the Go program. -/
inductive Fault where
  | nilDereference
  | typeAssertion
  deriving DecidableEq, Repr

abbrev Bytes := List Nat

deriving instance DecidableEq for Except

/-! ## Package `strings` -/

/-- Go `strings.HasPrefix(s, pre)`. -/
def hasPrefixOf (s pre : String) : Bool :=
  pre.data.isPrefixOf s.data

/-- Go `strings.Cut(s, sep)` for a one-byte separator: the text before the
first `sep`, the text after it, and whether `sep` was found. -/
def cut (sep : Char) : List Char → List Char × List Char × Bool
  | [] => ([], [], false)
  | c :: cs =>
    if c = sep then ([], cs, true)
    else
      let r := cut sep cs
      (c :: r.1, r.2.1, r.2.2)

/-- Go `strings.LastIndex(s, sep) ` for a one-byte separator, as the split
of `s` around the last `sep`: `none` when `sep` does not occur. -/
def cutLast (sep : Char) : List Char → Option (List Char × List Char)
  | [] => none
  | c :: cs =>
    match cutLast sep cs with
    | some (a, b) => some (c :: a, b)
    | none => if c = sep then some ([], cs) else none

/-- Go `strings.Index(s, sub)`, as the split of `s` before the first
occurrence of `sub` (the second part starts with `sub`). -/
def cutAt (sub : List Char) : List Char → Option (List Char × List Char)
  | [] => if sub.isEmpty then some ([], []) else none
  | c :: cs =>
    if sub.isPrefixOf (c :: cs) then some ([], c :: cs)
    else
      match cutAt sub cs with
      | some (a, b) => some (c :: a, b)
      | none => none

/-- Go `strings.ToLower` on ASCII letters. -/
def toLowerAscii (c : Char) : Char :=
  if 65 ≤ c.toNat ∧ c.toNat ≤ 90 then Char.ofNat (c.toNat + 32) else c

/-! ## Package `net/url` -/

/-- The fields of Go `url.URL` that `url.Parse` fills. -/
structure URL where
  Scheme : String := ""
  Opaque : String := ""
  User : Option String := none
  Host : String := ""
  Path : String := ""
  RawQuery : String := ""
  Fragment : String := ""
  deriving DecidableEq, Repr

/-- Escaping modes of `net/url` used while parsing. -/
inductive Encoding where
  | encodePath
  | encodeUserPassword
  | encodeHost
  | encodeZone
  | encodeFragment
  deriving DecidableEq, Repr

def isAlpha (c : Char) : Bool :=
  (97 ≤ c.toNat && c.toNat ≤ 122) || (65 ≤ c.toNat && c.toNat ≤ 90)

def isDigitChar (c : Char) : Bool :=
  48 ≤ c.toNat && c.toNat ≤ 57

/-- Go `ishex`. -/
def ishex (c : Char) : Bool :=
  isDigitChar c || (97 ≤ c.toNat && c.toNat ≤ 102) || (65 ≤ c.toNat && c.toNat ≤ 70)

/-- Go `unhex`. -/
def unhex (c : Char) : Nat :=
  if isDigitChar c then c.toNat - 48
  else if 97 ≤ c.toNat ∧ c.toNat ≤ 102 then c.toNat - 97 + 10
  else if 65 ≤ c.toNat ∧ c.toNat ≤ 70 then c.toNat - 65 + 10
  else 0

/-- Go `shouldEscape(c, encodeHost)`: whether byte `c` may not appear
literally in a host. -/
def shouldEscapeHost (c : Char) : Bool :=
  if isAlpha c || isDigitChar c then false
  else if c ∈ ['!', '$', '&', Char.ofNat 39, '(', ')', '*', '+', ',', ';', '=', ':',
      '[', ']', '<', '>', '"'] then false
  else if c ∈ ['-', '_', '.', '~'] then false
  else true

/-- The validation pass of Go `unescape(s, mode)`: every `%` is followed by
two hex digits, a host escapes only non-ASCII bytes (or `%25`), and a host
holds no byte that would need escaping. -/
def unescapeCheck (mode : Encoding) : List Char → Bool
  | [] => true
  | '%' :: a :: b :: rest =>
    if !(ishex a && ishex b) then false
    else if mode = .encodeHost && unhex a < 8 && !(a = '2' && b = '5') then false
    else if mode = .encodeZone && !(a = '2' && b = '5') && unhex a * 16 + unhex b ≠ 32
        && shouldEscapeHost (Char.ofNat (unhex a * 16 + unhex b)) then false
    else unescapeCheck mode rest
  | '%' :: _ => false
  | c :: rest =>
    if (mode = .encodeHost || mode = .encodeZone) && c.toNat < 128 && shouldEscapeHost c
    then false
    else unescapeCheck mode rest

/-- The decoding pass of Go `unescape`: each `%XY` becomes the byte `XY`. -/
def unescapeDecode : List Char → List Char
  | [] => []
  | '%' :: a :: b :: rest => Char.ofNat (unhex a * 16 + unhex b) :: unescapeDecode rest
  | c :: rest => c :: unescapeDecode rest

/-- Go `unescape(s, mode)` for the modes `url.Parse` uses. -/
def unescape (s : List Char) (mode : Encoding) : Except String (List Char) :=
  if unescapeCheck mode s then .ok (unescapeDecode s)
  else .error "invalid URL escape or host character"

/-- Go `getScheme`: the scheme before the first `:` and the rest, the whole
input as rest when there is no valid scheme. `acc` is the prefix scanned so
far, reversed. -/
def getSchemeAux (raw : List Char) (acc : List Char) :
    List Char → Except String (List Char × List Char)
  | [] => .ok ([], raw)
  | c :: cs =>
    if isAlpha c then getSchemeAux raw (c :: acc) cs
    else if isDigitChar c || c = '+' || c = '-' || c = '.' then
      if acc.isEmpty then .ok ([], raw) else getSchemeAux raw (c :: acc) cs
    else if c = ':' then
      if acc.isEmpty then .error "missing protocol scheme" else .ok (acc.reverse, cs)
    else .ok ([], raw)

def getScheme (raw : List Char) : Except String (List Char × List Char) :=
  getSchemeAux raw [] raw

/-- Go `validOptionalPort`. -/
def validOptionalPort : List Char → Bool
  | [] => true
  | c :: cs => c = ':' && cs.all isDigitChar

/-- Go `validUserinfo`. -/
def validUserinfo (s : List Char) : Bool :=
  s.all fun c => isAlpha c || isDigitChar c ||
    c ∈ ['-', '.', '_', ':', '~', '!', '$', '&', Char.ofNat 39, '(', ')', '*', '+', ',',
      ';', '=', '%', '@']

/-- Go `parseHost`. -/
def parseHost (host : List Char) : Except String (List Char) :=
  match host with
  | '[' :: _ =>
    match cutLast ']' host with
    | none => .error "missing ] in host"
    | some (inner, colonPort) =>
      if !validOptionalPort colonPort then .error "invalid port after host"
      else
        match cutAt ['%', '2', '5'] inner with
        | some (host1, zone) => do
          let h1 ← unescape host1 .encodeHost
          let h2 ← unescape zone .encodeZone
          let h3 ← unescape (']' :: colonPort) .encodeHost
          pure (h1 ++ h2 ++ h3)
        | none => unescape host .encodeHost
  | _ =>
    match cutLast ':' host with
    | some (_, port) =>
      if !validOptionalPort (':' :: port) then .error "invalid port after host"
      else unescape host .encodeHost
    | none => unescape host .encodeHost

/-- Go `parseAuthority`: the user information (kept unparsed) and the host. -/
def parseAuthority (authority : List Char) : Except String (Option String × String) :=
  match cutLast '@' authority with
  | none => do
    let host ← parseHost authority
    pure (none, String.mk host)
  | some (userinfo, hostPart) => do
    let host ← parseHost hostPart
    if !validUserinfo userinfo then throw "net/url: invalid userinfo"
    let (username, password, _) := cut ':' userinfo
    let _ ← unescape username .encodeUserPassword
    let _ ← unescape password .encodeUserPassword
    pure (some (String.mk userinfo), String.mk host)

/-- Go `stringContainsCTLByte`. -/
def stringContainsCTLByte (s : List Char) : Bool :=
  s.any fun c => c.toNat < 32 || c.toNat = 127

/-- Go `parse(rawURL, false)`: everything of `url.Parse` but the fragment. -/
def parseNoFragment (rawURL : List Char) : Except String URL :=
  if stringContainsCTLByte rawURL then .error "net/url: invalid control character in URL"
  else if rawURL = ['*'] then .ok { Path := "*" }
  else do
    let (scheme0, rest0) ← getScheme rawURL
    let scheme := scheme0.map toLowerAscii
    let (rest, query, _) := cut '?' rest0
    let u : URL := { Scheme := String.mk scheme, RawQuery := String.mk query }
    match rest with
    | '/' :: '/' :: afterSlashes =>
      if scheme.isEmpty && afterSlashes.head? = some '/' then do
        let p ← unescape rest .encodePath
        pure { u with Path := String.mk p }
      else do
        let (authority, tail, found) := cut '/' afterSlashes
        let pathPart := if found then '/' :: tail else []
        let (user, host) ← parseAuthority authority
        let p ← unescape pathPart .encodePath
        pure { u with User := user, Host := host, Path := String.mk p }
    | '/' :: _ => do
      let p ← unescape rest .encodePath
      pure { u with Path := String.mk p }
    | _ =>
      if !scheme.isEmpty then pure { u with Opaque := String.mk rest }
      else if (cut '/' rest).1.contains ':' then
        throw "first path segment in URL cannot contain colon"
      else do
        let p ← unescape rest .encodePath
        pure { u with Path := String.mk p }

/-- Go `url.Parse`: on failure the Go function returns a nil `*URL` together
with the error. -/
def urlParse (rawURL : String) : Except String URL :=
  let (u, frag, _) := cut '#' rawURL.data
  match parseNoFragment u with
  | .error e => .error e
  | .ok url =>
    if frag.isEmpty then .ok url
    else
      match unescape frag .encodeFragment with
      | .error e => .error e
      | .ok f => .ok { url with Fragment := String.mk f }

/-! ## `certificate.go`: the URL policy -/

/-- Go `verifyCertURL` of `certificate.go`. The parse error is discarded
(`link, _ := url.Parse(path)`), so after a failed parse `link` is nil and
reading `link.Scheme` panics. -/
def verifyCertURL (path : String) : Except Fault Bool :=
  match urlParse path with
  | .error _ => .error .nilDereference
  | .ok link =>
    if link.Scheme ≠ "https" then .ok false
    else if link.Host ≠ "s3.amazonaws.com" ∧ link.Host ≠ "s3.amazonaws.com:443" then .ok false
    else if !hasPrefixOf link.Path "/echo.api/" then .ok false
    else .ok true

/-! ## Package `time` -/

/-- A Go `time.Time` without monotonic reading, as the number of nanoseconds
since the Unix epoch. -/
structure Time where
  unixNano : Int
  deriving DecidableEq, Repr

/-- Go `time.Second`, a `Duration` in nanoseconds. -/
def Second : Int := 1000000000

/-- Largest Go `time.Duration` (an `int64`). -/
def maxDuration : Int := 2 ^ 63 - 1

/-- Smallest Go `time.Duration`. -/
def minDuration : Int := -(2 ^ 63)

/-- Go `t.Unix()`: whole seconds since the epoch, rounded down. -/
def Time.Unix (t : Time) : Int := t.unixNano / 1000000000

/-- Go `t.Sub(u)`: the difference as a `Duration`, saturating at the
largest and the smallest duration. -/
def Time.Sub (t u : Time) : Int :=
  let d := t.unixNano - u.unixNano
  if d > maxDuration then maxDuration
  else if d < minDuration then minDuration
  else d

/-- Go `time.Since(t)` when the clock reads `now`. -/
def since (now t : Time) : Int := now.Sub t

/-- Go `isLeap`. -/
def isLeap (year : Nat) : Bool :=
  year % 4 = 0 && (year % 100 ≠ 0 || year % 400 = 0)

/-- Go `daysIn(month, year)`. -/
def daysIn (month year : Nat) : Nat :=
  if month = 2 then (if isLeap year then 29 else 28)
  else if month = 4 ∨ month = 6 ∨ month = 9 ∨ month = 11 then 30
  else 31

/-- Days from 1970-01-01 to the given day of the proleptic Gregorian
calendar. -/
def daysSinceEpoch (year month day : Nat) : Int :=
  let y : Int := if month ≤ 2 then (year : Int) - 1 else year
  let era : Int := y / 400
  let yoe : Int := y - era * 400
  let mp : Int := if month > 2 then (month : Int) - 3 else (month : Int) + 9
  let doy : Int := (153 * mp + 2) / 5 + (day : Int) - 1
  let doe : Int := yoe * 365 + yoe / 4 - yoe / 100 + doy
  era * 146097 + doe - 719468

/-- Go `time.Date(year, month, day, hour, min, sec, nsec, time.UTC)` for
fields already in range. -/
def date (year month day hour min sec nsec : Nat) : Time :=
  { unixNano :=
      (daysSinceEpoch year month day * 86400 + hour * 3600 + min * 60 + sec) * 1000000000
        + nsec }

def digitVal (c : Char) : Nat := c.toNat - 48

/-- Go `getnum(s, fixed)`: one or two leading digits, exactly two when
`fixed`. -/
def getnum (s : List Char) (fixed : Bool) : Option (Nat × List Char) :=
  match s with
  | [] => none
  | c0 :: rest =>
    if !isDigitChar c0 then none
    else
      match rest with
      | c1 :: rest2 =>
        if isDigitChar c1 then some (digitVal c0 * 10 + digitVal c1, rest2)
        else if fixed then none
        else some (digitVal c0, rest)
      | [] => if fixed then none else some (digitVal c0, rest)

/-- Go `skip(value, lit)` for a one-byte literal of the layout. -/
def skipChar (lit : Char) : List Char → Option (List Char)
  | c :: cs => if c = lit then some cs else none
  | [] => none

/-- The four-digit year of layout element `2006`. -/
def parseYear : List Char → Option (Nat × List Char)
  | a :: b :: c :: d :: rest =>
    if isDigitChar a && isDigitChar b && isDigitChar c && isDigitChar d then
      some (digitVal a * 1000 + digitVal b * 100 + digitVal c * 10 + digitVal d, rest)
    else none
  | _ => none

/-- Value of a digit string (Go `atoi` on digits). -/
def digitsVal (ds : List Char) : Nat :=
  ds.foldl (fun acc c => acc * 10 + digitVal c) 0

/-- The fractional second the parser accepts right after the seconds field
although the layout has none: a period or comma followed by digits, of which
the first nine count. Returns the nanoseconds and the remaining input. -/
def parseFraction (value : List Char) : Nat × List Char :=
  match value with
  | sep :: d :: rest =>
    if (sep = '.' || sep = ',') && isDigitChar d then
      let digits := (d :: rest).takeWhile isDigitChar
      let remaining := (d :: rest).dropWhile isDigitChar
      let used := digits.take 9
      (digitsVal used * 10 ^ (9 - used.length), remaining)
    else (0, value)
  | _ => (0, value)

/-- A range check of the parser: failure is the parse error. -/
def require (ok : Bool) : Option Unit :=
  if ok then some () else none

/-- The date part `2006-01-02` of the layout: year, month, day and the
remaining input. The day is checked against the month once parsing is over. -/
def parseDateFields (value : List Char) : Option (Nat × Nat × Nat × List Char) :=
  (parseYear value).bind fun y =>
  (skipChar '-' y.2).bind fun v1 =>
  (getnum v1 true).bind fun m =>
  (require (decide (1 ≤ m.1 ∧ m.1 ≤ 12))).bind fun _ =>
  (skipChar '-' m.2).bind fun v2 =>
  (getnum v2 true).bind fun d =>
  some (y.1, m.1, d.1, d.2)

/-- The clock part `15:04:05` of the layout with the optional fractional
second: hour, minute, second, nanosecond and the remaining input. -/
def parseClockFields (value : List Char) : Option (Nat × Nat × Nat × Nat × List Char) :=
  (getnum value false).bind fun h =>
  (require (decide (h.1 < 24))).bind fun _ =>
  (skipChar ':' h.2).bind fun v1 =>
  (getnum v1 true).bind fun mi =>
  (require (decide (mi.1 < 60))).bind fun _ =>
  (skipChar ':' mi.2).bind fun v2 =>
  (getnum v2 true).bind fun s =>
  (require (decide (s.1 < 60))).bind fun _ =>
  some (h.1, mi.1, s.1, (parseFraction s.2).1, (parseFraction s.2).2)

/-- Go `time.Parse("2006-01-02T15:04:05Z", value)`: `none` when the Go
function returns an error. The final `Z` of the layout is literal text and
the result is in UTC. -/
def timeParse (value : String) : Option Time :=
  (parseDateFields value.data).bind fun d =>
  (skipChar 'T' d.2.2.2).bind fun v1 =>
  (parseClockFields v1).bind fun c =>
  (skipChar 'Z' c.2.2.2.2).bind fun v2 =>
  (require v2.isEmpty).bind fun _ =>
  (require (decide (1 ≤ d.2.2.1 ∧ d.2.2.1 ≤ daysIn d.2.1 d.1))).bind fun _ =>
  some (date d.1 d.2.1 d.2.2.1 c.1 c.2.1 c.2.2.1 c.2.2.2.1)

/-! ## `request.go` -/

/-- Go values of type `error` the package returns: its own sentinel errors,
and errors made by a library or by `fmt.Errorf`, kept by their message. -/
inductive Error where
  | ErrSlotNotFound
  | ErrRequestExpired
  | ErrInvalidAppID
  | ErrInvalidCertificateURL
  | ErrFailedDecodingPEM
  | ErrAmazonCertificateExpired
  | ErrNameNotFound
  | ErrFailedToVerifyBody
  | ErrInvalidSignature
  | other (msg : String)
  deriving DecidableEq, Repr

/-- Go `Slot`. -/
structure Slot where
  Name : String := ""
  Value : String := ""
  deriving DecidableEq, Repr

/-- Go `Intent`; the map `Slots` is a list of entries with distinct keys,
the nil map being the empty list. -/
structure Intent where
  Name : String := ""
  Slots : List (String × Slot) := []
  deriving DecidableEq, Repr

/-- Go `RequestBody`; the field `Type` is written `Type_`. -/
structure RequestBody where
  Type_ : String := ""
  RequestID : String := ""
  Timestamp : String := ""
  Intent : Intent := {}
  Reason : String := ""
  deriving DecidableEq, Repr

/-- The anonymous struct `Session.Application`. -/
structure SessionApplication where
  ApplicationID : String := ""
  deriving DecidableEq, Repr

/-- The anonymous struct `Session.User`. -/
structure SessionUser where
  UserID : String := ""
  AccessToken : String := ""
  deriving DecidableEq, Repr

/-- Go `Session`; the free-form attribute values are kept as JSON text. -/
structure Session where
  New : Bool := false
  SessionID : String := ""
  Application : SessionApplication := {}
  Attributes : List (String × String) := []
  User : SessionUser := {}
  deriving DecidableEq, Repr

set_option linter.dupNamespace false in
/-- Go `Request`. The zero value `{}` is what decoding the JSON object with
no members gives. -/
structure Request where
  Version : String := ""
  Session : Session := {}
  Request : RequestBody := {}
  deriving DecidableEq, Repr

/-- Go `(*Request).VerifyTimestamp` when `time.Since` reads the clock at
`now`. -/
def Request.VerifyTimestamp (now : Time) (r : Alexa.Request) : Bool :=
  match timeParse r.Request.Timestamp with
  | none => false
  | some reqTimestamp =>
    if since now reqTimestamp > 150 * Second then false
    else true

/-- Go `(*Request).VerifyApplicationID`. -/
def Request.VerifyApplicationID (r : Alexa.Request) (appID : String) : Bool :=
  if appID.length = 0 then true
  else if r.Session.Application.ApplicationID = appID then true
  else false

/-- An `io.Reader` as far as its consumer sees it: the bytes it delivers and
then either end of input (`fail = none`) or a read error. -/
structure Reader where
  data : Bytes := []
  fail : Option String := none
  deriving DecidableEq, Repr

/-- Outcome of `json.NewDecoder(r).Decode(&req)`: the pointer `req` after the
call (nil when the document is `null` or nothing was stored) and the error. -/
structure Decoded where
  req : Option Request
  err : Option Error
  deriving DecidableEq, Repr

/-- Result of `ParseRequest`: the named results `req` and `err`. -/
structure ParseResult where
  req : Option Request
  err : Option Error
  deriving DecidableEq, Repr

/-- Go `ParseRequest`. `decode` is `encoding/json` decoding into `*Request`,
`now` the clock reading of `VerifyTimestamp`. Calling a method that reads a
field through a nil `*Request` panics. -/
def ParseRequest (decode : Reader → Decoded) (now : Time) (appID : String) (r : Reader) :
    Except Fault ParseResult :=
  let d := decode r
  match d.err with
  | some e => .ok { req := d.req, err := some e }
  | none =>
    match d.req with
    | none => .error .nilDereference
    | some req =>
      if !req.VerifyTimestamp now then .ok { req := some req, err := some .ErrRequestExpired }
      else if !req.VerifyApplicationID appID then
        .ok { req := some req, err := some .ErrInvalidAppID }
      else .ok { req := some req, err := none }

/-! ## Package `encoding/base64` -/

/-- The decode map of `base64.StdEncoding`: the six-bit value of a byte of
the standard alphabet. -/
def decodeMap (c : Char) : Option Nat :=
  if 65 ≤ c.toNat ∧ c.toNat ≤ 90 then some (c.toNat - 65)
  else if 97 ≤ c.toNat ∧ c.toNat ≤ 122 then some (c.toNat - 97 + 26)
  else if 48 ≤ c.toNat ∧ c.toNat ≤ 57 then some (c.toNat - 48 + 52)
  else if c = '+' then some 62
  else if c = '/' then some 63
  else none

def isNewline (c : Char) : Bool := c.toNat = 10 || c.toNat = 13

/-- The first `dlen - 1` bytes of the 24-bit group made of up to four
six-bit values, as `decodeQuantum` stores them. -/
def quantumBytes (sextets : List Nat) (dlen : Nat) : Bytes :=
  let val := sextets.getD 0 0 * 262144 + sextets.getD 1 0 * 4096 + sextets.getD 2 0 * 64
    + sextets.getD 3 0
  [val / 65536 % 256, val / 256 % 256, val % 256].take (dlen - 1)

/-- Go `(*Encoding).Decode` of `base64.StdEncoding` (padded, not strict):
the loop over `decodeQuantum`. `acc` holds the six-bit values of the quantum
being read. The result is the bytes written before decoding stopped and
whether it stopped with a `CorruptInputError`. After the padding of the last
quantum, trailing input is an error, but the bytes of that quantum are
written all the same. -/
def decodeFrom (acc : List Nat) : List Char → Bytes × Bool
  | [] => if acc.isEmpty then ([], false) else ([], true)
  | c :: cs =>
    match decodeMap c with
    | some v =>
      if acc.length = 3 then
        let r := decodeFrom [] cs
        (quantumBytes (acc ++ [v]) 4 ++ r.1, r.2)
      else decodeFrom (acc ++ [v]) cs
    | none =>
      if isNewline c then decodeFrom acc cs
      else if c ≠ '=' then ([], true)
      else if acc.length < 2 then ([], true)
      else if acc.length = 2 then
        match cs.dropWhile isNewline with
        | [] => ([], true)
        | c2 :: rest =>
          if c2 ≠ '=' then ([], true)
          else (quantumBytes acc 2, !(rest.dropWhile isNewline).isEmpty)
      else (quantumBytes acc 3, !(cs.dropWhile isNewline).isEmpty)

/-- Go `base64.StdEncoding.DecodeString(s)`: the decoded bytes `dbuf[:n]`
and whether the error is non-nil. -/
def DecodeString (s : String) : Bytes × Bool :=
  decodeFrom [] s.data

/-! ## `certificate.go`: `VerifyRequest` -/

/-- The dynamic value of `pkix.AttributeTypeAndValue.Value`
(an `interface{}`): a string, or a value of another type. -/
inductive AttributeValue where
  | str (s : String)
  | other (raw : Bytes)
  deriving DecidableEq, Repr

/-- Go `pkix.AttributeTypeAndValue`, an attribute of the certificate subject;
the field `Type` (an object identifier) is written `Type_`. -/
structure AttributeTypeAndValue where
  Type_ : List Nat := []
  Value : AttributeValue
  deriving DecidableEq, Repr

/-- Go `rsa.PublicKey`. -/
structure RSAPublicKey where
  N : Nat
  E : Nat
  deriving DecidableEq, Repr

/-- The dynamic value of `x509.Certificate.PublicKey` (an `interface{}`). -/
inductive PublicKey where
  | rsa (key : RSAPublicKey)
  | ecdsa (x y : Nat)
  | unsupported
  deriving DecidableEq, Repr

/-- The fields of Go `x509.Certificate` the package reads, with the subject
alternative names `DNSNames` next to the subject attributes
`Subject.Names`. -/
structure Certificate where
  NotBefore : Time
  NotAfter : Time
  SubjectNames : List AttributeTypeAndValue := []
  DNSNames : List String := []
  PublicKey : PublicKey
  deriving DecidableEq, Repr

/-- Go `pem.Block`. -/
structure PEMBlock where
  Type_ : String := ""
  Bytes : List Nat := []
  deriving DecidableEq, Repr

/-- Go `http.Response` as returned by `http.Get`. -/
structure HTTPResponse where
  StatusCode : Nat
  Body : Reader
  deriving DecidableEq, Repr

/-- Go `http.Request` as far as `VerifyRequest` uses it. -/
structure HTTPRequest where
  Header : List (String × String) := []
  Body : Reader := {}
  deriving DecidableEq, Repr

/-- Go `ioutil.ReadAll(r)`. -/
def Reader.readAll (r : Reader) : Except String Bytes :=
  match r.fail with
  | some e => .error e
  | none => .ok r.data

/-- Go `r.Header.Get(key)`: the first value stored under `key`, the empty
string when there is none. -/
def headerGet (h : List (String × String)) (key : String) : String :=
  match h.lookup key with
  | some v => v
  | none => ""

/-- The standard library and the outside world as `VerifyRequest` calls
them. -/
structure Env where
  /-- Go `http.Get(url)`: a response of any status, or a transport error. -/
  httpGet : String → Except String HTTPResponse
  /-- Go `pem.Decode(data)`: the first block, `none` for a nil block. -/
  pemDecode : Bytes → Option PEMBlock
  /-- Go `x509.ParseCertificate(der)`. -/
  parseCertificate : Bytes → Except String Certificate
  /-- Go `sha1.New()`, written to and summed. -/
  sha1 : Bytes → Bytes
  /-- Go `rsa.VerifyPKCS1v15(key, crypto.SHA1, hashed, sig)`: `true` when the
  returned error is nil. -/
  verifyPKCS1v15 : RSAPublicKey → Bytes → Bytes → Bool
  /-- The successive readings of `time.Now()` during the call. -/
  now : Nat → Time

/-- What `VerifyRequest` leaves behind when it returns: the error (`none`
for nil) and the request, whose `Body` it may have replaced. -/
structure VerifyResult where
  err : Option Error
  request : HTTPRequest
  deriving DecidableEq, Repr

/-- The loop over `x509cert.Subject.Names` of `VerifyRequest`. -/
def foundName (cert : Certificate) : Bool :=
  cert.SubjectNames.any fun altName => altName.Value = .str "echo-api.amazon.com"

/-- The part of Go `VerifyRequest` from the signature gate on
(`// Verify the key`). The decoder error of the `Signature` header is
discarded, the body is read through a tee into a buffer that replaces
`r.Body`, and `publicKey.(*rsa.PublicKey)` panics for any other key. -/
def verifySignature (env : Env) (r : HTTPRequest) (x509cert : Certificate) :
    Except Fault VerifyResult :=
  let publicKey := x509cert.PublicKey
  let encryptedSig := (DecodeString (headerGet r.Header "Signature")).1
  match r.Body.fail with
  | some e =>
    .ok { err := some .ErrFailedToVerifyBody,
          request := { r with Body := { data := [], fail := some e } } }
  | none =>
    let r2 : HTTPRequest := { r with Body := { data := r.Body.data, fail := none } }
    match publicKey with
    | .rsa key =>
      if env.verifyPKCS1v15 key (env.sha1 r.Body.data) encryptedSig then
        .ok { err := none, request := r2 }
      else .ok { err := some .ErrInvalidSignature, request := r2 }
    | _ => .error .typeAssertion

/-- The part of Go `VerifyRequest` after `x509.ParseCertificate`: the date
check, which reads the clock twice, the name check and the signature. -/
def verifyCertificate (env : Env) (r : HTTPRequest) (x509cert : Certificate) :
    Except Fault VerifyResult :=
  if (env.now 0).Unix < x509cert.NotBefore.Unix ∨ (env.now 1).Unix > x509cert.NotAfter.Unix then
    .ok { err := some .ErrAmazonCertificateExpired, request := r }
  else if !foundName x509cert then .ok { err := some .ErrNameNotFound, request := r }
  else verifySignature env r x509cert

/-- Go `VerifyRequest`. -/
def VerifyRequest (env : Env) (r : HTTPRequest) : Except Fault VerifyResult :=
  let certURL := headerGet r.Header "SignatureCertChainUrl"
  match verifyCertURL certURL with
  | .error f => .error f
  | .ok false => .ok { err := some .ErrInvalidCertificateURL, request := r }
  | .ok true =>
    match env.httpGet certURL with
    | .error e =>
      .ok { err := some (.other ("could not fetch Amazon certificate: " ++ e)), request := r }
    | .ok cert =>
      match cert.Body.readAll with
      | .error e =>
        .ok { err := some (.other ("could not read response body: " ++ e)), request := r }
      | .ok certContents =>
        match env.pemDecode certContents with
        | none => .ok { err := some .ErrFailedDecodingPEM, request := r }
        | some block =>
          match env.parseCertificate block.Bytes with
          | .error e =>
            .ok { err := some (.other ("could not parse certificate: " ++ e)), request := r }
          | .ok x509cert => verifyCertificate env r x509cert

/-! ## `response.go` -/

/-- Go `ResponseImage`. -/
structure ResponseImage where
  SmallImageURL : String := ""
  LargeImageURL : String := ""
  deriving DecidableEq, Repr

/-- Go `ResponsePayload`; the field `Type` is written `Type_`. -/
structure ResponsePayload where
  Content : String := ""
  Image : ResponseImage := {}
  Text : String := ""
  Title : String := ""
  Type_ : String := ""
  SSML : String := ""
  deriving DecidableEq, Repr

/-- Go `Reprompt`. -/
structure Reprompt where
  OutputSpeech : ResponsePayload := {}
  deriving DecidableEq, Repr

/-- Go `ResponseBody`; a nil pointer is `none`. -/
structure ResponseBody where
  Card : Option ResponsePayload := none
  OutputSpeech : Option ResponsePayload := none
  Reprompt : Option Reprompt := none
  ShouldEndSession : Bool := false
  deriving DecidableEq, Repr

set_option linter.dupNamespace false in
/-- Go `Response`; the attribute values are kept as JSON text. -/
structure Response where
  SessionAttributes : List (String × String) := []
  Response : ResponseBody := {}
  Version : String := ""
  deriving DecidableEq, Repr

/-- Go `NewResponse`. -/
def NewResponse : Response :=
  { Version := "1.0", Response := { ShouldEndSession := true } }

/-- Go `(*Response).OutputSpeech`. -/
def Response.OutputSpeech (r : Alexa.Response) (text : String) : Alexa.Response :=
  { r with Response := { r.Response with OutputSpeech := some { Type_ := "PlainText", Text := text } } }

/-- Go `(*Response).OutputSpeechSSML`. -/
def Response.OutputSpeechSSML (r : Alexa.Response) (text : String) : Alexa.Response :=
  { r with Response := { r.Response with OutputSpeech := some { Type_ := "SSML", SSML := text } } }

/-- Go `(*Response).SimpleCard`. -/
def Response.SimpleCard (r : Alexa.Response) (title content : String) : Alexa.Response :=
  { r with Response := { r.Response with
      Card := some { Type_ := "Simple", Title := title, Content := content } } }

/-- Go `(*Response).Card`. -/
def Response.Card (r : Alexa.Response) (title content : String) : Alexa.Response :=
  r.SimpleCard title content

/-- Go `(*Response).StandardCard`. -/
def Response.StandardCard (r : Alexa.Response) (title content smallImg largeImg : String) :
    Alexa.Response :=
  let card : ResponsePayload := { Type_ := "Standard", Title := title, Content := content }
  let card := if smallImg ≠ "" then { card with Image := { card.Image with SmallImageURL := smallImg } }
    else card
  let card := if largeImg ≠ "" then { card with Image := { card.Image with LargeImageURL := largeImg } }
    else card
  { r with Response := { r.Response with Card := some card } }

/-- Go `(*Response).LinkAccountCard`. -/
def Response.LinkAccountCard (r : Alexa.Response) : Alexa.Response :=
  { r with Response := { r.Response with Card := some { Type_ := "LinkAccount" } } }

/-- Go `(*Response).Reprompt`. -/
def Response.Reprompt (r : Alexa.Response) (text : String) : Alexa.Response :=
  { r with Response := { r.Response with
      Reprompt := some { OutputSpeech := { Type_ := "PlainText", Text := text } } } }

/-- Go `(*Response).EndSession`. -/
def Response.EndSession (r : Alexa.Response) (flag : Bool) : Alexa.Response :=
  { r with Response := { r.Response with ShouldEndSession := flag } }

/-! ## `request.go`: accessors -/

/-- Go `(*Request).Type`. -/
def Request.Type (r : Alexa.Request) : String := r.Request.Type_

/-- Go `(*Request).SlotValue`: the value and the error (`none` for nil). -/
def Request.SlotValue (r : Alexa.Request) (slotName : String) : String × Option Error :=
  match r.Request.Intent.Slots.lookup slotName with
  | some v => (v.Value, none)
  | none => ("", some .ErrSlotNotFound)

/-! ## `application.go` -/

/-- A handler callback `func(*Request, *Response)`: what it makes of the
response it is handed. -/
abbrev HandlerFunc := Alexa.Request → Alexa.Response → Alexa.Response

/-- Go `Application`; a nil callback is `none`. -/
structure Application where
  ID : String := ""
  LaunchHandler : Option HandlerFunc := none
  IntentHandler : Option HandlerFunc := none
  SessionEndedHandler : Option HandlerFunc := none

/-- The three callbacks of an `Application`. -/
inductive HandlerKind where
  | launch
  | intent
  | sessionEnded
  deriving DecidableEq, Repr

/-- One invocation of a callback: which one, and the arguments passed. -/
structure HandlerCall where
  kind : HandlerKind
  req : Alexa.Request
  res : Alexa.Response
  deriving DecidableEq, Repr

/-- What `Application.Handler` returns (`res` is `none` for a nil
interface value), together with the callback invocations it made, in
order. -/
structure HandlerResult where
  res : Option Alexa.Response
  err : Option Error
  calls : List HandlerCall
  deriving DecidableEq, Repr

/-- The call `h(req, res)` guarded by `h != nil` in `Application.Handler`. -/
def invoke (kind : HandlerKind) (h : Option HandlerFunc) (req : Alexa.Request)
    (res : Alexa.Response) : HandlerResult :=
  match h with
  | some f => { res := some (f req res), err := none, calls := [⟨kind, req, res⟩] }
  | none => { res := some res, err := none, calls := [] }

/-- Go `Application.Handler`. `decode` and `now` are those of
`ParseRequest`, which reads the event through `bytes.NewReader`. -/
def Application.Handler (a : Application) (decode : Reader → Decoded) (now : Time)
    (event : Bytes) : Except Fault HandlerResult :=
  match ParseRequest decode now a.ID { data := event, fail := none } with
  | .error f => .error f
  | .ok p =>
    match p.err with
    | some e => .ok { res := none, err := some e, calls := [] }
    | none =>
      match p.req with
      | none => .error .nilDereference
      | some req =>
        let res := NewResponse
        if req.Type = "LaunchRequest" then .ok (invoke .launch a.LaunchHandler req res)
        else if req.Type = "IntentRequest" then .ok (invoke .intent a.IntentHandler req res)
        else if req.Type = "SessionEndedRequest" then
          .ok (invoke .sessionEnded a.SessionEndedHandler req res)
        else .ok { res := none, err := some (.other "invalid request type"), calls := [] }

/-! ## A test double of the environment -/

/-- A certificate valid from 1970 to 2100 that names `echo-api.amazon.com`
both as subject common name and as subject alternative name, with an RSA
key. -/
def testCertificate : Certificate :=
  { NotBefore := ⟨0⟩
    NotAfter := ⟨4102444800000000000⟩
    SubjectNames := [{ Type_ := [2, 5, 4, 3], Value := .str "echo-api.amazon.com" }]
    DNSNames := ["echo-api.amazon.com"]
    PublicKey := .rsa ⟨3233, 17⟩ }

/-- An environment for evaluating the model on concrete inputs: every fetch
answers with the given status and a readable body, PEM decoding and
certificate parsing succeed and yield the given certificate, the digest is
the identity, a signature verifies exactly when it equals the digest, and
the clock stands at 2016-01-01T00:00:00Z. -/
def testEnv (status : Nat) (cert : Certificate) : Env :=
  { httpGet := fun _ => .ok { StatusCode := status, Body := { data := [45, 45], fail := none } }
    pemDecode := fun _ => some { Type_ := "CERTIFICATE", Bytes := [48] }
    parseCertificate := fun _ => .ok cert
    sha1 := fun body => body
    verifyPKCS1v15 := fun _ hashed sig => decide (sig = hashed)
    now := fun _ => ⟨1451606400000000000⟩ }

/-- The certificate URL header of a request that passes the URL policy. -/
def goodURLHeader : String × String :=
  ("SignatureCertChainUrl", "https://s3.amazonaws.com/echo.api/cert.pem")

/-- A certificate like `testCertificate` whose subject alternative names
hold `echo-api.amazon.com` while its subject names another common name. -/
def sanOnlyCertificate : Certificate :=
  { testCertificate with
    SubjectNames := [{ Type_ := [2, 5, 4, 3], Value := .str "Amazon" }] }

/-- A certificate like `testCertificate` without subject alternative names,
whose subject organisation is the text `echo-api.amazon.com`. -/
def subjectOnlyCertificate : Certificate :=
  { testCertificate with
    SubjectNames := [{ Type_ := [2, 5, 4, 10], Value := .str "echo-api.amazon.com" }]
    DNSNames := [] }

/-- A request with a good certificate URL, the given `Signature` header and
the given body. -/
def testRequest (signature : String) (body : Reader) : HTTPRequest :=
  { Header := [goodURLHeader, ("Signature", signature)], Body := body }

/-- A launch request stamped `2016-01-01T00:00:00Z` for application
`amzn1.app123`. -/
def launchRequest : Alexa.Request :=
  { Version := "1.0"
    Session := { Application := { ApplicationID := "amzn1.app123" } }
    Request := { Type_ := "LaunchRequest", Timestamp := "2016-01-01T00:00:00Z" } }

/-- The clock of `testEnv`, 2016-01-01T00:00:00Z. -/
def testNow : Time := ⟨1451606400000000000⟩

/-- A certificate like `testCertificate` with an ECDSA public key. -/
def ecdsaCertificate : Certificate :=
  { testCertificate with PublicKey := .ecdsa 1 2 }

/-- A certificate that expired in 1970, does not name the platform and
carries an RSA key. -/
def expiredCertificate : Certificate :=
  { NotBefore := ⟨0⟩
    NotAfter := ⟨1000000000⟩
    SubjectNames := []
    DNSNames := []
    PublicKey := .rsa ⟨3233, 17⟩ }

/-- An application for application id `amzn1.app123` whose launch handler
sets a plain text speech and which has no other handler. -/
def testApplication : Application :=
  { ID := "amzn1.app123"
    LaunchHandler := some fun _ res => res.OutputSpeech "hello" }

/-! ## Dot segments -/

/-- The segments of a path between its `/` separators. -/
def splitSlash : List Char → List (List Char)
  | [] => [[]]
  | c :: cs =>
    match splitSlash cs with
    | [] => [[c]]
    | seg :: segs => if c = '/' then [] :: seg :: segs else (c :: seg) :: segs

/-- One step of resolving dot segments: `stack` holds the segments kept so
far, last first. -/
def pushSegment (stack : List (List Char)) (seg : List Char) : List (List Char) :=
  if seg = ['.'] then stack
  else if seg = ['.', '.'] then stack.tail
  else seg :: stack

/-- Whether the last segment of a path is `.` or `..`. -/
def endsWithDot (segs : List (List Char)) : Bool :=
  match segs.getLast? with
  | some l => decide (l = ['.']) || decide (l = ['.', '.'])
  | none => false

/-- The path named by an absolute URL path once its `.` and `..` segments
are resolved (RFC 3986, section 5.2.4): a `.` segment is dropped, a `..`
segment removes the segment before it, and a path that ends in `.` or `..`
ends in `/` afterwards. A path that does not start with `/` is left as it
is. This is the notion the property about accepted URLs speaks of; the
program itself never resolves a path. -/
def resolveDotSegments (path : String) : String :=
  match splitSlash path.data with
  | [] :: segs =>
    let segs2 := if endsWithDot segs then segs ++ [[]] else segs
    String.mk (((segs2.foldl pushSegment []).reverse.map fun seg => '/' :: seg).flatten)
  | _ => path

/-- Whether the `..` segments of a list of path segments, read from `depth`
segments below a directory, never climb above that directory. -/
def staysBelow : Nat → List (List Char) → Bool
  | _, [] => true
  | depth, seg :: rest =>
    if seg = ['.'] then staysBelow depth rest
    else if seg = ['.', '.'] then
      match depth with
      | 0 => false
      | d + 1 => staysBelow d rest
    else staysBelow (depth + 1) rest

/-! ## The timestamp form of the specification -/

/-- The fields of a timestamp written exactly in the form
`YYYY-MM-DDTHH:MM:SSZ`: four, two, two, two, two and two decimal digits
between the separators `-`, `-`, `T`, `:`, `:` and the final `Z`; `none` for
any other text. -/
def strictFields (value : String) : Option (Nat × Nat × Nat × Nat × Nat × Nat) :=
  match value.data with
  | [y1, y2, y3, y4, a, m1, m2, b, d1, d2, t, h1, h2, c, n1, n2, e, s1, s2, z] =>
    if [y1, y2, y3, y4, m1, m2, d1, d2, h1, h2, n1, n2, s1, s2].all isDigitChar
        && decide ([a, b, t, c, e, z] = ['-', '-', 'T', ':', ':', 'Z']) then
      some (digitVal y1 * 1000 + digitVal y2 * 100 + digitVal y3 * 10 + digitVal y4,
        digitVal m1 * 10 + digitVal m2, digitVal d1 * 10 + digitVal d2,
        digitVal h1 * 10 + digitVal h2, digitVal n1 * 10 + digitVal n2,
        digitVal s1 * 10 + digitVal s2)
    else none
  | _ => none

/-- Whether a timestamp is of the form `YYYY-MM-DDTHH:MM:SSZ`. -/
def isLayoutForm (value : String) : Bool := (strictFields value).isSome

/-- The instant named by a timestamp of the form `YYYY-MM-DDTHH:MM:SSZ`
whose fields are a date of the calendar and a time of day, in UTC; `none`
for any other text. -/
def parseStrict (value : String) : Option Time :=
  match strictFields value with
  | some (year, month, day, hour, min, sec) =>
    if 1 ≤ month ∧ month ≤ 12 ∧ 1 ≤ day ∧ day ≤ daysIn month year ∧ hour < 24 ∧ min < 60
        ∧ sec < 60 then
      some (date year month day hour min sec 0)
    else none
  | none => none

/-! ## Lemmas -/

theorem length_eq_zero_iff (s : String) : s.length = 0 ↔ s = "" := by
  cases s with
  | mk data =>
    constructor
    · intro h
      have hd : data = [] := List.length_eq_zero.mp h
      subst hd
      rfl
    · intro h
      rw [h]
      rfl

/-- Saturation of `Time.Sub` does not change the comparison with a bound
that is itself a duration. -/
theorem since_gt_iff (now t : Time) (bound : Int) (h1 : minDuration ≤ bound)
    (h2 : bound < maxDuration) :
    since now t > bound ↔ now.unixNano - t.unixNano > bound := by
  unfold since Time.Sub
  simp only []
  split_ifs with ha hb <;> omega

/-- Once the URL policy, the fetch, PEM decoding and certificate parsing
have passed, `VerifyRequest` is the certificate and signature check. -/
theorem VerifyRequest_of_parsed (env : Env) (r : HTTPRequest) (resp : HTTPResponse)
    (contents : Bytes) (block : PEMBlock) (cert : Certificate)
    (hurl : verifyCertURL (headerGet r.Header "SignatureCertChainUrl") = .ok true)
    (hget : env.httpGet (headerGet r.Header "SignatureCertChainUrl") = .ok resp)
    (hread : resp.Body.readAll = .ok contents)
    (hpem : env.pemDecode contents = some block)
    (hparse : env.parseCertificate block.Bytes = .ok cert) :
    VerifyRequest env r = verifyCertificate env r cert := by
  simp only [VerifyRequest, hurl, hget, hread, hpem, hparse]

/-- The signature gate returns one of three verdicts. -/
theorem verifySignature_err (env : Env) (r : HTTPRequest) (cert : Certificate)
    (res : VerifyResult) (h : verifySignature env r cert = .ok res) :
    res.err = some .ErrFailedToVerifyBody ∨ res.err = none ∨
      res.err = some .ErrInvalidSignature := by
  unfold verifySignature at h
  simp only [] at h
  split at h
  · cases h
    exact Or.inl rfl
  · split at h
    · split at h
      · cases h
        exact Or.inr (Or.inl rfl)
      · cases h
        exact Or.inr (Or.inr rfl)
    · cases h

/-- A key has an entry in an association list exactly when looking it up
finds a value. -/
theorem lookup_isSome_iff {β : Type} (k : String) (l : List (String × β)) :
    (l.lookup k).isSome = true ↔ k ∈ l.map Prod.fst := by
  induction l with
  | nil => simp
  | cons hd tl ih =>
    obtain ⟨k2, v⟩ := hd
    by_cases h : k = k2
    · subst h
      simp [List.lookup]
    · have hb : (k == k2) = false := by simpa using h
      simp only [List.lookup, hb, List.map_cons, List.mem_cons, h, false_or]
      exact ih

/-- The date and name checks leave the request to the signature gate or
hand it back untouched. -/
theorem verifyCertificate_body (env : Env) (r : HTTPRequest) (cert : Certificate)
    (res : VerifyResult) (hbody : r.Body.fail = none)
    (h : verifyCertificate env r cert = .ok res) :
    res.request.Body.readAll = .ok r.Body.data ∧ res.request.Header = r.Header := by
  have hr : r.Body.readAll = .ok r.Body.data := by
    unfold Reader.readAll
    rw [hbody]
  unfold verifyCertificate at h
  split at h
  · cases h
    exact ⟨hr, rfl⟩
  · split at h
    · cases h
      exact ⟨hr, rfl⟩
    · unfold verifySignature at h
      simp only [hbody] at h
      split at h
      · split at h <;> cases h <;> exact ⟨rfl, rfl⟩
      · cases h

/-- In an association list with distinct keys, looking a key up finds the
value of its entry. -/
theorem lookup_of_mem {β : Type} (k : String) (v : β) (l : List (String × β))
    (hnd : (l.map Prod.fst).Nodup) (hmem : (k, v) ∈ l) : l.lookup k = some v := by
  induction l with
  | nil => cases hmem
  | cons hd tl ih =>
    obtain ⟨k2, v2⟩ := hd
    simp only [List.map_cons, List.nodup_cons] at hnd
    rcases List.mem_cons.mp hmem with heq | htl
    · cases heq
      simp [List.lookup]
    · have hne : k ≠ k2 := by
        intro hk
        subst hk
        exact hnd.1 (List.mem_map.mpr ⟨(k, v), htl, rfl⟩)
      have hb : (k == k2) = false := by simpa using hne
      simp only [List.lookup, hb]
      exact ih hnd.2 htl

/-- The decision of `verifyCertURL` on a string that parses. -/
theorem verifyCertURL_spec_aux (path : String) (link : URL) (h : urlParse path = .ok link) :
    verifyCertURL path = .ok true ↔ (link.Scheme = "https" ∧
      (link.Host = "s3.amazonaws.com" ∨ link.Host = "s3.amazonaws.com:443") ∧
      hasPrefixOf link.Path "/echo.api/" = true) := by
  unfold verifyCertURL
  rw [h]
  by_cases hs : link.Scheme = "https"
  · by_cases hh : link.Host = "s3.amazonaws.com"
    · by_cases hp : hasPrefixOf link.Path "/echo.api/" = true <;> simp [hs, hh, hp]
    · by_cases hh2 : link.Host = "s3.amazonaws.com:443"
      · by_cases hp : hasPrefixOf link.Path "/echo.api/" = true <;> simp [hs, hh2, hp]
      · simp [hs, hh, hh2]
  · simp [hs]

/-- The verdict of `ParseRequest` on a body that decodes to an envelope
without error. -/
theorem ParseRequest_of_decoded (decode : Reader → Decoded) (now : Time) (appID : String)
    (r : Reader) (req : Alexa.Request) (h : decode r = ⟨some req, none⟩) :
    ParseRequest decode now appID r = .ok
      (if req.VerifyTimestamp now = false then ⟨some req, some .ErrRequestExpired⟩
       else if req.VerifyApplicationID appID = false then ⟨some req, some .ErrInvalidAppID⟩
       else ⟨some req, none⟩) := by
  unfold ParseRequest
  simp only [h]
  cases hts : req.VerifyTimestamp now <;> cases hid : req.VerifyApplicationID appID <;> simp

/-- The date fields of a text that starts in the form `YYYY-MM-DD`. -/
theorem parseDateFields_strict (y1 y2 y3 y4 m1 m2 d1 d2 : Char) (rest : List Char)
    (hy1 : isDigitChar y1 = true) (hy2 : isDigitChar y2 = true) (hy3 : isDigitChar y3 = true)
    (hy4 : isDigitChar y4 = true) (hm1 : isDigitChar m1 = true) (hm2 : isDigitChar m2 = true)
    (hd1 : isDigitChar d1 = true) (hd2 : isDigitChar d2 = true) :
    parseDateFields (y1 :: y2 :: y3 :: y4 :: '-' :: m1 :: m2 :: '-' :: d1 :: d2 :: rest)
      = if 1 ≤ digitVal m1 * 10 + digitVal m2 ∧ digitVal m1 * 10 + digitVal m2 ≤ 12 then
          some (digitVal y1 * 1000 + digitVal y2 * 100 + digitVal y3 * 10 + digitVal y4,
            digitVal m1 * 10 + digitVal m2, digitVal d1 * 10 + digitVal d2, rest)
        else none := by
  simp only [parseDateFields, parseYear, getnum, skipChar, require, hy1, hy2, hy3, hy4, hm1,
    hm2, hd1, hd2, Bool.and_self, if_true, Option.bind, Bool.not_true, Bool.false_eq_true,
    if_false]
  generalize digitVal m1 * 10 + digitVal m2 = M
  by_cases hm : 1 ≤ M ∧ M ≤ 12
  · simp only [hm, and_self, decide_True, if_true]
  · simp only [hm, decide_False, if_false, Bool.false_eq_true]

/-- The clock fields of a text in the form `HH:MM:SS` followed by `Z`. -/
theorem parseClockFields_strict (h1 h2 n1 n2 s1 s2 : Char)
    (hh1 : isDigitChar h1 = true) (hh2 : isDigitChar h2 = true) (hn1 : isDigitChar n1 = true)
    (hn2 : isDigitChar n2 = true) (hs1 : isDigitChar s1 = true) (hs2 : isDigitChar s2 = true) :
    parseClockFields [h1, h2, ':', n1, n2, ':', s1, s2, 'Z']
      = if digitVal h1 * 10 + digitVal h2 < 24 ∧ digitVal n1 * 10 + digitVal n2 < 60 ∧
            digitVal s1 * 10 + digitVal s2 < 60 then
          some (digitVal h1 * 10 + digitVal h2, digitVal n1 * 10 + digitVal n2,
            digitVal s1 * 10 + digitVal s2, 0, ['Z'])
        else none := by
  simp only [parseClockFields, getnum, skipChar, require, parseFraction, hh1, hh2, hn1, hn2,
    hs1, hs2, if_true, Option.bind, Bool.not_true, Bool.false_eq_true, if_false]
  generalize digitVal h1 * 10 + digitVal h2 = H
  generalize digitVal n1 * 10 + digitVal n2 = N
  generalize digitVal s1 * 10 + digitVal s2 = S
  by_cases hh : H < 24 <;> by_cases hn : N < 60 <;> by_cases hs : S < 60 <;>
    simp [hh, hn, hs]

/-- On a timestamp of the form `YYYY-MM-DDTHH:MM:SSZ` the parser of Go and
the reading of the fields by position agree. -/
theorem timeParse_of_layoutForm (value : String) (h : isLayoutForm value = true) :
    timeParse value = parseStrict value := by
  unfold isLayoutForm strictFields at h
  unfold parseStrict strictFields
  split at h
  next y1 y2 y3 y4 a m1 m2 b d1 d2 t h1 h2 c n1 n2 e s1 s2 z heq =>
    split at h
    next hc =>
      simp only [hc, if_true]
      simp only [List.all_cons, List.all_nil, Bool.and_true, Bool.and_eq_true,
        decide_eq_true_eq, List.cons.injEq, and_true] at hc
      obtain ⟨⟨hy1, hy2, hy3, hy4, hm1, hm2, hd1, hd2, hh1, hh2, hn1, hn2, hs1, hs2⟩,
        ha, hb, ht, hcc, he, hz⟩ := hc
      subst ha hb ht hcc he hz
      unfold timeParse
      rw [heq, parseDateFields_strict y1 y2 y3 y4 m1 m2 d1 d2 _ hy1 hy2 hy3 hy4 hm1 hm2 hd1 hd2]
      generalize digitVal y1 * 1000 + digitVal y2 * 100 + digitVal y3 * 10 + digitVal y4 = Y
      generalize hM : digitVal m1 * 10 + digitVal m2 = M
      generalize hD : digitVal d1 * 10 + digitVal d2 = D
      by_cases hm : 1 ≤ M ∧ M ≤ 12
      · simp only [hm, and_self, if_true, Option.bind, skipChar]
        rw [parseClockFields_strict h1 h2 n1 n2 s1 s2 hh1 hh2 hn1 hn2 hs1 hs2]
        generalize digitVal h1 * 10 + digitVal h2 = H
        generalize digitVal n1 * 10 + digitVal n2 = N
        generalize digitVal s1 * 10 + digitVal s2 = S
        by_cases hh : H < 24 <;> by_cases hn : N < 60 <;> by_cases hs : S < 60 <;>
          by_cases hd : 1 ≤ D ∧ D ≤ daysIn M Y <;>
          simp [hm, hh, hn, hs, hd, require]
      · have hm2 : ¬ (1 ≤ M ∧ M ≤ 12 ∧ 1 ≤ D ∧ D ≤ daysIn M Y ∧
            digitVal h1 * 10 + digitVal h2 < 24 ∧ digitVal n1 * 10 + digitVal n2 < 60 ∧
            digitVal s1 * 10 + digitVal s2 < 60) := fun hx => hm ⟨hx.1, hx.2.1⟩
        simp only [hm, if_false, Option.bind, hm2]
    next hc => simp at h
  next => simp at h

/-- A path has at least one segment. -/
theorem splitSlash_ne_nil (l : List Char) : splitSlash l ≠ [] := by
  induction l with
  | nil => simp [splitSlash]
  | cons c cs ih =>
    unfold splitSlash
    split
    · simp
    · split <;> simp

/-- The segments of a path that begins with `/echo.api/`. -/
theorem splitSlash_echo (tail : List Char) :
    splitSlash (['/', 'e', 'c', 'h', 'o', '.', 'a', 'p', 'i', '/'] ++ tail)
      = [] :: ['e', 'c', 'h', 'o', '.', 'a', 'p', 'i'] :: splitSlash tail := by
  obtain ⟨seg, segs, hst⟩ : ∃ seg segs, splitSlash tail = seg :: segs := by
    cases h : splitSlash tail with
    | nil => exact absurd h (splitSlash_ne_nil tail)
    | cons seg segs => exact ⟨seg, segs, rfl⟩
  show splitSlash ('/' :: 'e' :: 'c' :: 'h' :: 'o' :: '.' :: 'a' :: 'p' :: 'i' :: '/' :: tail) = _
  simp [splitSlash, hst]

/-- Segments without `..` never climb. -/
theorem staysBelow_of_no_dotdot (ts : List (List Char)) (h : ['.', '.'] ∉ ts) :
    ∀ depth, staysBelow depth ts = true := by
  induction ts with
  | nil => intro depth; rfl
  | cons seg rest ih =>
    intro depth
    have hseg : seg ≠ ['.', '.'] := fun hx => h (by simp [hx])
    have hrest : ['.', '.'] ∉ rest := fun hx => h (List.mem_cons_of_mem _ hx)
    unfold staysBelow
    by_cases hd : seg = ['.']
    · simp only [hd, if_true]
      exact ih hrest depth
    · simp only [hd, hseg, if_false]
      exact ih hrest (depth + 1)

/-- Segments that never climb keep that property without their last one. -/
theorem staysBelow_init (init : List (List Char)) (l : List Char) :
    ∀ depth, staysBelow depth (init ++ [l]) = true → staysBelow depth init = true := by
  induction init with
  | nil => intro depth _; rfl
  | cons seg rest ih =>
    intro depth h
    simp only [List.cons_append] at h
    unfold staysBelow at h ⊢
    by_cases hd : seg = ['.']
    · simp only [hd, if_true] at h ⊢
      exact ih depth h
    · by_cases hdd : seg = ['.', '.']
      · simp only [hdd, if_true] at h ⊢
        cases depth with
        | zero => simp at h
        | succ d => exact ih d h
      · simp only [hd, hdd, if_false] at h ⊢
        exact ih (depth + 1) h

/-- Resolving segments that never climb above a directory keeps the
directory at the bottom of the stack. -/
theorem foldl_pushSegment_keeps (dir : List Char) (ts : List (List Char)) :
    ∀ s : List (List Char), staysBelow s.length ts = true →
      ∃ s2, ts.foldl pushSegment (s ++ [dir]) = s2 ++ [dir] := by
  induction ts with
  | nil => intro s _; exact ⟨s, rfl⟩
  | cons seg rest ih =>
    intro s h
    unfold staysBelow at h
    simp only [List.foldl_cons]
    by_cases hd : seg = ['.']
    · simp only [hd, if_true] at h
      have : pushSegment (s ++ [dir]) seg = s ++ [dir] := by simp [pushSegment, hd]
      rw [this]
      exact ih s h
    · by_cases hdd : seg = ['.', '.']
      · simp only [hdd, if_true] at h
        cases s with
        | nil => simp at h
        | cons x s0 =>
          have : pushSegment ((x :: s0) ++ [dir]) seg = s0 ++ [dir] := by
            simp [pushSegment, hdd]
          rw [this]
          exact ih s0 (by simpa using h)
      · simp only [hd, hdd, if_false] at h
        have : pushSegment (s ++ [dir]) seg = (seg :: s) ++ [dir] := by
          simp [pushSegment, hd, hdd]
        rw [this]
        exact ih (seg :: s) (by simpa using h)

/-- A path below `/echo.api/` whose `..` segments never climb above that
directory resolves to a path that begins with `/echo.api/`. -/
theorem resolve_stays (tail : List Char) (h : staysBelow 0 (splitSlash tail) = true) :
    hasPrefixOf (resolveDotSegments (String.mk ("/echo.api/".data ++ tail))) "/echo.api/"
      = true := by
  have hne := splitSlash_ne_nil tail
  obtain ⟨init, l, hl1, hl2, hsegs, hinit⟩ : ∃ init l, l ≠ ['.'] ∧ l ≠ ['.', '.'] ∧
      (if endsWithDot (['e', 'c', 'h', 'o', '.', 'a', 'p', 'i'] :: splitSlash tail) then
          (['e', 'c', 'h', 'o', '.', 'a', 'p', 'i'] :: splitSlash tail) ++ [[]]
        else ['e', 'c', 'h', 'o', '.', 'a', 'p', 'i'] :: splitSlash tail)
        = ['e', 'c', 'h', 'o', '.', 'a', 'p', 'i'] :: (init ++ [l]) ∧
      staysBelow 0 init = true := by
    rcases List.eq_nil_or_concat (splitSlash tail) with hnil | ⟨init, l, hc⟩
    · exact absurd hnil hne
    · rw [List.concat_eq_append] at hc
      have hlast : (['e', 'c', 'h', 'o', '.', 'a', 'p', 'i'] :: (init ++ [l])).getLast?
          = some l := by
        rw [← List.cons_append, List.getLast?_concat]
      cases he : endsWithDot (['e', 'c', 'h', 'o', '.', 'a', 'p', 'i'] :: splitSlash tail) with
      | true =>
        refine ⟨splitSlash tail, [], by decide, by decide, ?_, h⟩
        simp
      | false =>
        rw [hc] at he h
        unfold endsWithDot at he
        rw [hlast] at he
        simp only [Bool.or_eq_false_iff, decide_eq_false_iff_not] at he
        refine ⟨init, l, he.1, he.2, ?_, staysBelow_init init l 0 h⟩
        simp [hc]
  obtain ⟨s2, hs2⟩ := foldl_pushSegment_keeps ['e', 'c', 'h', 'o', '.', 'a', 'p', 'i'] init []
    (by simpa using hinit)
  unfold resolveDotSegments
  simp only [splitSlash_echo]
  rw [hsegs]
  have hfold : (['e', 'c', 'h', 'o', '.', 'a', 'p', 'i'] :: (init ++ [l])).foldl pushSegment []
      = l :: (s2 ++ [['e', 'c', 'h', 'o', '.', 'a', 'p', 'i']]) := by
    simp only [List.foldl_cons, List.foldl_append, List.foldl_nil]
    have h0 : pushSegment [] ['e', 'c', 'h', 'o', '.', 'a', 'p', 'i']
        = [] ++ [['e', 'c', 'h', 'o', '.', 'a', 'p', 'i']] := by decide
    rw [h0, hs2]
    simp [pushSegment, hl1, hl2]
  rw [hfold]
  unfold hasPrefixOf
  cases hr : s2.reverse with
  | nil => simp [hr]
  | cons x xs => simp [hr]

/-! ## Theorems -/

/-- C1: for every string that `url.Parse` accepts, `verifyCertURL` returns
a boolean, and it is true exactly when the parsed scheme is `https`, the
parsed host is `s3.amazonaws.com` or `s3.amazonaws.com:443`, and the parsed
path starts with `/echo.api/`; the three example URLs of the specification
with a wrong scheme, host or path are rejected and the good one is
accepted. -/
theorem verifyCertURL_spec (path : String) (link : URL) (h : urlParse path = .ok link) :
    verifyCertURL path = .ok (decide (link.Scheme = "https" ∧
      (link.Host = "s3.amazonaws.com" ∨ link.Host = "s3.amazonaws.com:443") ∧
      hasPrefixOf link.Path "/echo.api/" = true)) ∧
    (verifyCertURL path = .ok true ↔ (link.Scheme = "https" ∧
      (link.Host = "s3.amazonaws.com" ∨ link.Host = "s3.amazonaws.com:443") ∧
      hasPrefixOf link.Path "/echo.api/" = true)) ∧
    verifyCertURL "http://s3.amazonaws.com/echo.api/cert.pem" = .ok false ∧
    verifyCertURL "https://evil.com/echo.api/cert.pem" = .ok false ∧
    verifyCertURL "https://s3.amazonaws.com/other/cert.pem" = .ok false ∧
    verifyCertURL "https://s3.amazonaws.com/echo.api/cert.pem" = .ok true := by
  have key : verifyCertURL path = .ok (decide (link.Scheme = "https" ∧
      (link.Host = "s3.amazonaws.com" ∨ link.Host = "s3.amazonaws.com:443") ∧
      hasPrefixOf link.Path "/echo.api/" = true)) := by
    unfold verifyCertURL
    rw [h]
    by_cases hs : link.Scheme = "https"
    · by_cases hh : link.Host = "s3.amazonaws.com"
      · by_cases hp : hasPrefixOf link.Path "/echo.api/" = true <;> simp [hs, hh, hp]
      · by_cases hh2 : link.Host = "s3.amazonaws.com:443"
        · by_cases hp : hasPrefixOf link.Path "/echo.api/" = true <;> simp [hs, hh2, hp]
        · simp [hs, hh, hh2]
    · simp [hs]
  refine ⟨key, ?_, by decide, by decide, by decide, by decide⟩
  rw [key]
  simp

/-- Witness of C1 at the accepted URL of the specification. -/
theorem verifyCertURL_spec_witness :
    urlParse "https://s3.amazonaws.com/echo.api/cert.pem"
      = .ok { Scheme := "https", Host := "s3.amazonaws.com", Path := "/echo.api/cert.pem" } ∧
    verifyCertURL "https://s3.amazonaws.com/echo.api/cert.pem" = .ok true :=
  ⟨by decide,
   (verifyCertURL_spec "https://s3.amazonaws.com/echo.api/cert.pem"
      { Scheme := "https", Host := "s3.amazonaws.com", Path := "/echo.api/cert.pem" }
      (by decide)).2.2.2.2.2⟩

/-- C2 (the code at the failing input): a certificate URL with an invalid
percent-escape, or with a control character, does not parse, and
`verifyCertURL` then panics on the nil URL instead of returning a boolean;
so does `VerifyRequest` for a request carrying it, whatever the environment
and the body. -/
theorem verifyCertURL_unparsable_panics (env : Env) (body : Reader) :
    urlParse "%zz" = .error "invalid URL escape or host character" ∧
    verifyCertURL "%zz" = .error .nilDereference ∧
    verifyCertURL (String.mk ['h', 't', 't', 'p', 's', ':', '/', '/', 'a', Char.ofNat 1])
      = .error .nilDereference ∧
    VerifyRequest env { Header := [("SignatureCertChainUrl", "%zz")], Body := body }
      = .error .nilDereference := by
  refine ⟨by decide, by decide, by decide, ?_⟩
  have h : verifyCertURL (headerGet [("SignatureCertChainUrl", "%zz")] "SignatureCertChainUrl")
      = .error .nilDereference := by decide
  simp only [VerifyRequest, h]

/-- C3 (counterexample): the timestamps `2016-01-01T00:00:00.5Z`, with a
fractional second, and `2016-01-01T7:05:09Z`, with a one-digit hour, are not
of the form `YYYY-MM-DDTHH:MM:SSZ`, yet `VerifyTimestamp` returns true for
them one second later. -/
theorem VerifyTimestamp_accepts_other_forms :
    isLayoutForm "2016-01-01T00:00:00.5Z" = false ∧
    Request.VerifyTimestamp ⟨1451606401000000000⟩
      { Request := { Timestamp := "2016-01-01T00:00:00.5Z" } } = true ∧
    isLayoutForm "2016-01-01T7:05:09Z" = false ∧
    Request.VerifyTimestamp ⟨1451631910000000000⟩
      { Request := { Timestamp := "2016-01-01T7:05:09Z" } } = true := by
  refine ⟨by decide, by decide, by decide, by decide⟩

/-- C3 (amended): `VerifyTimestamp` returns true exactly when `time.Parse`
accepts the timestamp for the layout `2006-01-02T15:04:05Z` and the time
elapsed since it is at most 150 seconds. For a timestamp of the form
`YYYY-MM-DDTHH:MM:SSZ` that is exactly when its fields are a date of the
calendar and a time of day and the time elapsed since that UTC instant is at
most 150 seconds; every such timestamp is accepted by the parser as that
instant. A timestamp exactly 150 seconds old is accepted, one 151 seconds
old is rejected, and a timestamp that is not in the past is accepted. -/
theorem VerifyTimestamp_spec (now : Time) (r : Alexa.Request) :
    (r.VerifyTimestamp now = true ↔
      ∃ t, timeParse r.Request.Timestamp = some t ∧
        now.unixNano - t.unixNano ≤ 150 * Second) ∧
    (isLayoutForm r.Request.Timestamp = true →
      (r.VerifyTimestamp now = true ↔
        ∃ t, parseStrict r.Request.Timestamp = some t ∧
          now.unixNano - t.unixNano ≤ 150 * Second)) ∧
    (∀ t, parseStrict r.Request.Timestamp = some t →
      timeParse r.Request.Timestamp = some t) ∧
    (∀ t, timeParse r.Request.Timestamp = some t →
      (now.unixNano = t.unixNano + 150 * Second → r.VerifyTimestamp now = true) ∧
      (now.unixNano = t.unixNano + 151 * Second → r.VerifyTimestamp now = false) ∧
      (now.unixNano ≤ t.unixNano → r.VerifyTimestamp now = true)) := by
  have hb1 : minDuration ≤ 150 * Second := by decide
  have hb2 : 150 * Second < maxDuration := by decide
  have key : ∀ t, timeParse r.Request.Timestamp = some t →
      (r.VerifyTimestamp now = true ↔ now.unixNano - t.unixNano ≤ 150 * Second) := by
    intro t ht
    unfold Request.VerifyTimestamp
    rw [ht]
    have := since_gt_iff now t (150 * Second) hb1 hb2
    by_cases hgt : since now t > 150 * Second
    · simp only [hgt, if_true]
      have := this.mp hgt
      constructor
      · intro h; cases h
      · intro h; omega
    · simp only [hgt, if_false]
      have : ¬ (now.unixNano - t.unixNano > 150 * Second) := fun h => hgt (this.mpr h)
      constructor
      · intro _; omega
      · intro _; trivial
  have hsec : Second = 1000000000 := rfl
  have hiff : r.VerifyTimestamp now = true ↔
      ∃ t, timeParse r.Request.Timestamp = some t ∧
        now.unixNano - t.unixNano ≤ 150 * Second := by
    constructor
    · intro h
      cases ht : timeParse r.Request.Timestamp with
      | none =>
        unfold Request.VerifyTimestamp at h
        rw [ht] at h
        cases h
      | some t => exact ⟨t, rfl, (key t ht).mp h⟩
    · rintro ⟨t, ht, hle⟩
      exact (key t ht).mpr hle
  refine ⟨hiff, ?_, ?_, ?_⟩
  · intro hform
    rw [hiff, timeParse_of_layoutForm _ hform]
  · intro t ht
    have hform : isLayoutForm r.Request.Timestamp = true := by
      unfold isLayoutForm
      unfold parseStrict at ht
      cases hf : strictFields r.Request.Timestamp with
      | none =>
        rw [hf] at ht
        cases ht
      | some f => rfl
    rw [timeParse_of_layoutForm _ hform]
    exact ht
  · intro t ht
    refine ⟨fun h => (key t ht).mpr (by omega), fun h => ?_, fun h => (key t ht).mpr (by omega)⟩
    cases hv : r.VerifyTimestamp now with
    | false => rfl
    | true =>
      have := (key t ht).mp hv
      omega

/-- Witness of C3 (amended): a request stamped `2016-01-01T00:00:00Z`, of
the form `YYYY-MM-DDTHH:MM:SSZ`, verified exactly 150 seconds later. -/
theorem VerifyTimestamp_spec_witness :
    isLayoutForm "2016-01-01T00:00:00Z" = true ∧
    parseStrict "2016-01-01T00:00:00Z" = some ⟨1451606400000000000⟩ ∧
    timeParse "2016-01-01T00:00:00Z" = some ⟨1451606400000000000⟩ ∧
    Request.VerifyTimestamp ⟨1451606550000000000⟩
      { Request := { Timestamp := "2016-01-01T00:00:00Z" } } = true :=
  ⟨by decide, by decide,
   (VerifyTimestamp_spec ⟨1451606550000000000⟩
      { Request := { Timestamp := "2016-01-01T00:00:00Z" } }).2.2.1
      ⟨1451606400000000000⟩ (by decide),
   ((VerifyTimestamp_spec ⟨1451606550000000000⟩
      { Request := { Timestamp := "2016-01-01T00:00:00Z" } }).2.2.2
      ⟨1451606400000000000⟩ (by decide)).1 (by decide)⟩

/-- C4: `VerifyApplicationID` returns true exactly when the expected id is
empty or equals the application id of the session; an empty expected id
passes for every request, and `amzn1.app123` against `amzn1.app456`
fails. -/
theorem VerifyApplicationID_spec (r : Alexa.Request) (appID : String) :
    (r.VerifyApplicationID appID = true ↔
      (appID = "" ∨ r.Session.Application.ApplicationID = appID)) ∧
    r.VerifyApplicationID "" = true ∧
    Request.VerifyApplicationID
      { Session := { Application := { ApplicationID := "amzn1.app456" } } } "amzn1.app123"
      = false := by
  refine ⟨?_, rfl, by decide⟩
  unfold Request.VerifyApplicationID
  by_cases h0 : appID.length = 0
  · have := (length_eq_zero_iff appID).mp h0
    simp [h0, this]
  · have hne : appID ≠ "" := fun h => h0 ((length_eq_zero_iff appID).mpr h)
    by_cases heq : r.Session.Application.ApplicationID = appID <;> simp [h0, hne, heq]

/-- C5: for a body that decodes to an envelope without error,
`ParseRequest` returns `ErrRequestExpired` when `VerifyTimestamp` fails
(whatever the application id), otherwise `ErrInvalidAppID` when
`VerifyApplicationID` fails, otherwise no error, each time together with the
decoded request; a decoding error is returned as it is, before either
check. -/
theorem ParseRequest_order (decode : Reader → Decoded) (now : Time) (appID : String)
    (r : Reader) :
    (∀ req, decode r = ⟨some req, none⟩ →
      ParseRequest decode now appID r = .ok
        (if req.VerifyTimestamp now = false then ⟨some req, some .ErrRequestExpired⟩
         else if req.VerifyApplicationID appID = false then ⟨some req, some .ErrInvalidAppID⟩
         else ⟨some req, none⟩)) ∧
    (∀ q e, decode r = ⟨q, some e⟩ →
      ParseRequest decode now appID r = .ok ⟨q, some e⟩) := by
  constructor
  · intro req h
    exact ParseRequest_of_decoded decode now appID r req h
  · intro q e h
    unfold ParseRequest
    simp only [h]

/-- Witness of C5: a fresh launch request of the expected application is
returned without error, and a decoder error is handed back. -/
theorem ParseRequest_order_witness :
    ParseRequest (fun _ => ⟨some launchRequest, none⟩) testNow "amzn1.app123" {}
      = .ok ⟨some launchRequest, none⟩ ∧
    ParseRequest (fun _ => ⟨none, some (.other "unexpected end of JSON input")⟩) testNow
      "amzn1.app123" {} = .ok ⟨none, some (.other "unexpected end of JSON input")⟩ :=
  ⟨((ParseRequest_order (fun _ => ⟨some launchRequest, none⟩) testNow "amzn1.app123" {}).1
      launchRequest rfl).trans (by decide),
   (ParseRequest_order (fun _ => ⟨none, some (.other "unexpected end of JSON input")⟩) testNow
      "amzn1.app123" {}).2 none (.other "unexpected end of JSON input") rfl⟩

/-- C6 (the code at the failing input): when the decoder stores a nil
pointer and reports no error, as `encoding/json` does for the document
`null`, `ParseRequest` panics in `VerifyTimestamp`; for the zero envelope of
the document with no members it returns `ErrRequestExpired`. -/
theorem ParseRequest_null_panics (now : Time) (appID : String) (r : Reader) :
    ParseRequest (fun _ => ⟨none, none⟩) now appID r = .error .nilDereference ∧
    ParseRequest (fun _ => ⟨some {}, none⟩) now appID r
      = .ok ⟨some {}, some .ErrRequestExpired⟩ := by
  constructor
  · rfl
  · have h : Request.VerifyTimestamp now {} = false := by
      unfold Request.VerifyTimestamp
      have : timeParse ({} : Alexa.Request).Request.Timestamp = none := by decide
      rw [this]
    unfold ParseRequest
    simp [h]

/-- C7 (the code at the failing input): a valid certificate whose subject
alternative names contain `echo-api.amazon.com` is rejected with
`ErrNameNotFound` because its subject attributes do not hold that text, and
a certificate without subject alternative names passes the name check
because a subject attribute holds it. -/
theorem VerifyRequest_name_check_reads_subject :
    sanOnlyCertificate.DNSNames = ["echo-api.amazon.com"] ∧
    VerifyRequest (testEnv 200 sanOnlyCertificate) (testRequest "AQID" ⟨[1, 2, 3], none⟩)
      = .ok ⟨some .ErrNameNotFound, testRequest "AQID" ⟨[1, 2, 3], none⟩⟩ ∧
    subjectOnlyCertificate.DNSNames = [] ∧
    VerifyRequest (testEnv 200 subjectOnlyCertificate) (testRequest "AQID" ⟨[1, 2, 3], none⟩)
      = .ok ⟨none, testRequest "AQID" ⟨[1, 2, 3], none⟩⟩ := by
  refine ⟨rfl, by decide, rfl, by decide⟩

/-- C8: once the certificate is parsed, `VerifyRequest` returns
`ErrAmazonCertificateExpired` exactly when the unix second of the first
clock reading is below that of `NotBefore` or the unix second of the second
reading is above that of `NotAfter`; when both readings fall in the second
of `now`, exactly when that second is strictly below `NotBefore` or strictly
above `NotAfter`, so a certificate at its boundary second is accepted. -/
theorem VerifyRequest_expired_iff (env : Env) (r : HTTPRequest) (resp : HTTPResponse)
    (contents : Bytes) (block : PEMBlock) (cert : Certificate)
    (hurl : verifyCertURL (headerGet r.Header "SignatureCertChainUrl") = .ok true)
    (hget : env.httpGet (headerGet r.Header "SignatureCertChainUrl") = .ok resp)
    (hread : resp.Body.readAll = .ok contents)
    (hpem : env.pemDecode contents = some block)
    (hparse : env.parseCertificate block.Bytes = .ok cert) :
    ((∃ r2, VerifyRequest env r = .ok ⟨some .ErrAmazonCertificateExpired, r2⟩) ↔
      ((env.now 0).Unix < cert.NotBefore.Unix ∨ (env.now 1).Unix > cert.NotAfter.Unix)) ∧
    (∀ now : Time, (env.now 0).Unix = now.Unix → (env.now 1).Unix = now.Unix →
      ((∃ r2, VerifyRequest env r = .ok ⟨some .ErrAmazonCertificateExpired, r2⟩) ↔
        (now.Unix < cert.NotBefore.Unix ∨ now.Unix > cert.NotAfter.Unix))) := by
  have key : (∃ r2, VerifyRequest env r = .ok ⟨some .ErrAmazonCertificateExpired, r2⟩) ↔
      ((env.now 0).Unix < cert.NotBefore.Unix ∨ (env.now 1).Unix > cert.NotAfter.Unix) := by
    rw [VerifyRequest_of_parsed env r resp contents block cert hurl hget hread hpem hparse]
    unfold verifyCertificate
    by_cases hw : (env.now 0).Unix < cert.NotBefore.Unix ∨
        (env.now 1).Unix > cert.NotAfter.Unix
    · simp only [hw, if_true, iff_true]
      exact ⟨r, rfl⟩
    · simp only [hw, if_false, iff_false]
      rintro ⟨r2, h⟩
      by_cases hn : foundName cert = true
      · simp only [hn, Bool.not_true, Bool.false_eq_true, if_false] at h
        have := verifySignature_err env r cert _ h
        simp at this
      · simp only [hn, Bool.not_eq_true, Bool.not_false, if_true] at h
        simp at h
  refine ⟨key, ?_⟩
  intro now h0 h1
  rw [key, h0, h1]

/-- Witness of C8: a certificate whose `NotBefore` is the current second is
not rejected as expired. -/
theorem VerifyRequest_expired_iff_witness :
    ¬ ∃ r2, VerifyRequest (testEnv 200 { testCertificate with NotBefore := testNow })
      (testRequest "AQID" ⟨[1, 2, 3], none⟩)
        = .ok ⟨some .ErrAmazonCertificateExpired, r2⟩ := by
  intro h
  have hw := (VerifyRequest_expired_iff
    (testEnv 200 { testCertificate with NotBefore := testNow })
    (testRequest "AQID" ⟨[1, 2, 3], none⟩)
    { StatusCode := 200, Body := { data := [45, 45], fail := none } } [45, 45]
    { Type_ := "CERTIFICATE", Bytes := [48] }
    { testCertificate with NotBefore := testNow }
    (by decide) rfl rfl rfl rfl).1.mp h
  revert hw
  decide

/-- C9 (counterexample): a request whose certificate passed validation and
carries an RSA key, whose `Signature` header is the valid base64 of the
digest, but whose body stream fails while it is read, gets
`ErrFailedToVerifyBody`: the result is neither nil nor
`ErrInvalidSignature`. -/
theorem VerifyRequest_body_read_error :
    testCertificate.PublicKey = .rsa ⟨3233, 17⟩ ∧
    VerifyRequest (testEnv 200 testCertificate)
        (testRequest "AQID" ⟨[1, 2, 3], some "unexpected EOF"⟩)
      = .ok ⟨some .ErrFailedToVerifyBody, testRequest "AQID" ⟨[], some "unexpected EOF"⟩⟩ ∧
    Error.ErrFailedToVerifyBody ≠ Error.ErrInvalidSignature := by
  refine ⟨rfl, by decide, by decide⟩

/-- C9 (amended): for a request whose certificate passed the date and name
checks and carries an RSA key, whose body stream is read without error and
whose `Signature` header is valid standard base64, `VerifyRequest` returns
no error exactly when RSA PKCS#1 v1.5 verification succeeds, under that key,
for the digest of all the body bytes against the base64-decoded `Signature`
header, and `ErrInvalidSignature` otherwise; when reading the body fails it
returns `ErrFailedToVerifyBody`. -/
theorem VerifyRequest_signature_spec (env : Env) (r : HTTPRequest) (resp : HTTPResponse)
    (contents : Bytes) (block : PEMBlock) (cert : Certificate) (key : RSAPublicKey)
    (hurl : verifyCertURL (headerGet r.Header "SignatureCertChainUrl") = .ok true)
    (hget : env.httpGet (headerGet r.Header "SignatureCertChainUrl") = .ok resp)
    (hread : resp.Body.readAll = .ok contents)
    (hpem : env.pemDecode contents = some block)
    (hparse : env.parseCertificate block.Bytes = .ok cert)
    (hdate : ¬ ((env.now 0).Unix < cert.NotBefore.Unix ∨
      (env.now 1).Unix > cert.NotAfter.Unix))
    (hname : foundName cert = true)
    (hkey : cert.PublicKey = .rsa key) :
    (r.Body.fail = none → (DecodeString (headerGet r.Header "Signature")).2 = false →
      VerifyRequest env r = .ok
        ⟨if env.verifyPKCS1v15 key (env.sha1 r.Body.data)
            (DecodeString (headerGet r.Header "Signature")).1 = true
          then none else some .ErrInvalidSignature,
         { r with Body := { data := r.Body.data, fail := none } }⟩) ∧
    (∀ e, r.Body.fail = some e →
      VerifyRequest env r = .ok
        ⟨some .ErrFailedToVerifyBody, { r with Body := { data := [], fail := some e } }⟩) := by
  rw [VerifyRequest_of_parsed env r resp contents block cert hurl hget hread hpem hparse]
  unfold verifyCertificate
  simp only [hdate, if_false, hname, Bool.not_true, Bool.false_eq_true]
  unfold verifySignature
  simp only [hkey]
  constructor
  · intro hb _
    simp only [hb]
    by_cases hv : env.verifyPKCS1v15 key (env.sha1 r.Body.data)
        (DecodeString (headerGet r.Header "Signature")).1 = true
    · simp only [hv, if_true]
    · simp only [hv, if_false, Bool.false_eq_true]
  · intro e hb
    simp only [hb]

/-- Witness of C9 (amended): a readable body signed with its digest, the
signature in valid base64, verifies. -/
theorem VerifyRequest_signature_spec_witness :
    DecodeString "AQID" = ([1, 2, 3], false) ∧
    VerifyRequest (testEnv 200 testCertificate) (testRequest "AQID" ⟨[1, 2, 3], none⟩)
      = .ok ⟨none, testRequest "AQID" ⟨[1, 2, 3], none⟩⟩ :=
  ⟨by decide, ((VerifyRequest_signature_spec (testEnv 200 testCertificate)
    (testRequest "AQID" ⟨[1, 2, 3], none⟩)
    { StatusCode := 200, Body := { data := [45, 45], fail := none } } [45, 45]
    { Type_ := "CERTIFICATE", Bytes := [48] } testCertificate ⟨3233, 17⟩
    (by decide) rfl rfl rfl rfl (by decide) (by decide) rfl).1 rfl (by decide)).trans
    (by decide)⟩

/-- C10 (the code at the failing input): the header `AQID!`, the base64 of
the signature bytes 1, 2, 3 followed by a byte outside the alphabet, and the
header `AQ==x`, a padded quantum followed by trailing text, are both
reported corrupt by the decoder, which still returns the bytes decoded
before the fault; `VerifyRequest` discards the decoder error and accepts
the request when those bytes verify. -/
theorem VerifyRequest_accepts_corrupt_base64 :
    DecodeString "AQID" = ([1, 2, 3], false) ∧
    DecodeString "AQID!" = ([1, 2, 3], true) ∧
    DecodeString "AQ==x" = ([1], true) ∧
    VerifyRequest (testEnv 200 testCertificate) (testRequest "AQID!" ⟨[1, 2, 3], none⟩)
      = .ok ⟨none, testRequest "AQID!" ⟨[1, 2, 3], none⟩⟩ ∧
    VerifyRequest (testEnv 200 testCertificate) (testRequest "AQ==x" ⟨[1], none⟩)
      = .ok ⟨none, testRequest "AQ==x" ⟨[1], none⟩⟩ := by
  refine ⟨by decide, by decide, by decide, by decide, by decide⟩

/-- C11 (the code at the failing input): for a validated certificate with
an ECDSA key the type assertion `publicKey.(*rsa.PublicKey)` panics, so
`VerifyRequest` does not return `ErrInvalidSignature`; the same holds for
every request with a readable body and every key that is not an RSA key. -/
theorem VerifyRequest_non_rsa_panics (env : Env) (header : List (String × String))
    (data : Bytes) (cert : Certificate) (x y : Nat) :
    VerifyRequest (testEnv 200 ecdsaCertificate) (testRequest "AQID" ⟨[1, 2, 3], none⟩)
      = .error .typeAssertion ∧
    verifySignature env ⟨header, ⟨data, none⟩⟩ { cert with PublicKey := .ecdsa x y }
      = .error .typeAssertion ∧
    verifySignature env ⟨header, ⟨data, none⟩⟩ { cert with PublicKey := .unsupported }
      = .error .typeAssertion := by
  refine ⟨by decide, rfl, rfl⟩

/-- C12: for a request whose body stream is read without error, whenever
`VerifyRequest` returns, with nil or with any error, reading the body of the
request afterwards yields exactly the original body bytes, and the headers
are unchanged. -/
theorem VerifyRequest_body_replayable (env : Env) (r : HTTPRequest) (res : VerifyResult)
    (hbody : r.Body.fail = none) (h : VerifyRequest env r = .ok res) :
    res.request.Body.readAll = .ok r.Body.data ∧ res.request.Header = r.Header := by
  have hr : r.Body.readAll = .ok r.Body.data := by
    unfold Reader.readAll
    rw [hbody]
  unfold VerifyRequest at h
  simp only [] at h
  split at h
  · cases h
  · cases h
    exact ⟨hr, rfl⟩
  · split at h
    · cases h
      exact ⟨hr, rfl⟩
    · split at h
      · cases h
        exact ⟨hr, rfl⟩
      · split at h
        · cases h
          exact ⟨hr, rfl⟩
        · split at h
          · cases h
            exact ⟨hr, rfl⟩
          · exact verifyCertificate_body env r _ res hbody h

/-- Witness of C12: after a successful verification and after a rejection
for a bad signature the body reads as before. -/
theorem VerifyRequest_body_replayable_witness :
    (testRequest "AQID" ⟨[1, 2, 3], none⟩).Body.fail = none ∧
    VerifyRequest (testEnv 200 testCertificate) (testRequest "AQID" ⟨[1, 2, 3], none⟩)
      = .ok ⟨none, testRequest "AQID" ⟨[1, 2, 3], none⟩⟩ ∧
    (testRequest "AQID" ⟨[1, 2, 3], none⟩).Body.readAll = .ok [1, 2, 3] :=
  ⟨rfl, by decide,
   (VerifyRequest_body_replayable (testEnv 200 testCertificate)
      (testRequest "AQID" ⟨[1, 2, 3], none⟩) ⟨none, testRequest "AQID" ⟨[1, 2, 3], none⟩⟩
      rfl (by decide)).1⟩

/-- C13 (counterexample): an event that arrives with no certificate URL and
no signature, which `VerifyRequest` rejects with `ErrInvalidCertificateURL`
when it is the body of a request without headers, is handed to the launch
handler by `Application.Handler`, which returns the handler's response. -/
theorem Handler_runs_without_signature :
    VerifyRequest (testEnv 200 testCertificate) { Header := [], Body := ⟨[1, 2, 3], none⟩ }
      = .ok ⟨some .ErrInvalidCertificateURL, { Header := [], Body := ⟨[1, 2, 3], none⟩ }⟩ ∧
    testApplication.Handler (fun _ => ⟨some launchRequest, none⟩) testNow [1, 2, 3]
      = .ok ⟨some (NewResponse.OutputSpeech "hello"), none,
          [⟨.launch, launchRequest, NewResponse⟩]⟩ := by
  refine ⟨by decide, by decide⟩

/-- C13 (amended): `Application.Handler` invokes a handler callback only
for an event that `ParseRequest` accepted, that is, one that decoded without
error to an envelope whose timestamp is fresh and whose application id
matches; an event that `ParseRequest` rejects is answered with that error
and no handler runs. `Handler` receives the event alone and runs no
certificate or signature gate. -/
theorem Handler_calls_only_parsed (a : Application) (decode : Reader → Decoded) (now : Time)
    (event : Bytes) (res : HandlerResult)
    (h : a.Handler decode now event = .ok res) :
    (res.calls ≠ [] →
      ∃ req, decode { data := event, fail := none } = ⟨some req, none⟩ ∧
        req.VerifyTimestamp now = true ∧ req.VerifyApplicationID a.ID = true ∧
        res.err = none) ∧
    (∀ p e, ParseRequest decode now a.ID { data := event, fail := none } = .ok p →
      p.err = some e → res = ⟨none, some e, []⟩) := by
  constructor
  · intro hc
    unfold Application.Handler at h
    have hp := ParseRequest_of_decoded decode now a.ID { data := event, fail := none }
    cases hd : decode { data := event, fail := none } with
    | mk dreq derr =>
      cases derr with
      | some e =>
        simp only [ParseRequest, hd] at h
        cases h
        exact absurd rfl hc
      | none =>
        cases dreq with
        | none =>
          simp only [ParseRequest, hd] at h
          cases h
        | some req =>
          have hpr := hp req hd
          rw [hpr] at h
          cases hts : req.VerifyTimestamp now with
          | false =>
            simp only [hts, if_true] at h
            cases h
            exact absurd rfl hc
          | true =>
            cases hid : req.VerifyApplicationID a.ID with
            | false =>
              simp [hts, hid] at h
              subst h
              exact absurd rfl hc
            | true =>
              refine ⟨req, rfl, hts, hid, ?_⟩
              simp [hts, hid] at h
              split_ifs at h with h1 h2 h3
              · cases h
                unfold invoke
                split <;> rfl
              · cases h
                unfold invoke
                split <;> rfl
              · cases h
                unfold invoke
                split <;> rfl
              · cases h
                exact absurd rfl hc
  · intro p e hp he
    unfold Application.Handler at h
    rw [hp] at h
    simp only [he] at h
    cases h
    rfl

/-- Witness of C13 (amended): the launch handler ran for a fresh launch
request of the expected application. -/
theorem Handler_calls_only_parsed_witness :
    ∃ req, (fun _ => ⟨some launchRequest, none⟩ : Reader → Decoded)
        { data := [1, 2, 3], fail := none } = ⟨some req, none⟩ ∧
      req.VerifyTimestamp testNow = true ∧
      req.VerifyApplicationID testApplication.ID = true ∧
      (none : Option Error) = none :=
  (Handler_calls_only_parsed testApplication (fun _ => ⟨some launchRequest, none⟩) testNow
    [1, 2, 3]
    ⟨some (NewResponse.OutputSpeech "hello"), none, [⟨.launch, launchRequest, NewResponse⟩]⟩
    (by decide)).1 (by decide)

/-- C14 (counterexample): a fetch that completes with status 404 and a
body that decodes to a certificate passing every later check is accepted:
`VerifyRequest` returns nil. -/
theorem VerifyRequest_accepts_404 :
    (testEnv 404 testCertificate).httpGet "https://s3.amazonaws.com/echo.api/cert.pem"
      = .ok { StatusCode := 404, Body := { data := [45, 45], fail := none } } ∧
    VerifyRequest (testEnv 404 testCertificate) (testRequest "AQID" ⟨[1, 2, 3], none⟩)
      = .ok ⟨none, testRequest "AQID" ⟨[1, 2, 3], none⟩⟩ := by
  refine ⟨rfl, by decide⟩

/-- C14 (amended): `VerifyRequest` returns a fetch error and stops when
`http.Get` fails or when the response body cannot be read; it does not look
at the status of the response, so its outcome is the same whatever status
the fetch completes with. -/
theorem VerifyRequest_ignores_status (env : Env) (r : HTTPRequest) (status : Nat) :
    VerifyRequest
        { env with httpGet := fun u =>
            (env.httpGet u).map fun resp => { resp with StatusCode := status } } r
      = VerifyRequest env r ∧
    (∀ e, verifyCertURL (headerGet r.Header "SignatureCertChainUrl") = .ok true →
      env.httpGet (headerGet r.Header "SignatureCertChainUrl") = .error e →
      VerifyRequest env r
        = .ok ⟨some (.other ("could not fetch Amazon certificate: " ++ e)), r⟩) ∧
    (∀ resp e, verifyCertURL (headerGet r.Header "SignatureCertChainUrl") = .ok true →
      env.httpGet (headerGet r.Header "SignatureCertChainUrl") = .ok resp →
      resp.Body.readAll = .error e →
      VerifyRequest env r = .ok ⟨some (.other ("could not read response body: " ++ e)), r⟩) := by
  refine ⟨?_, ?_, ?_⟩
  · unfold VerifyRequest
    simp only []
    cases verifyCertURL (headerGet r.Header "SignatureCertChainUrl") with
    | error f => rfl
    | ok b =>
      cases b with
      | false => rfl
      | true =>
        cases env.httpGet (headerGet r.Header "SignatureCertChainUrl") with
        | error e => rfl
        | ok resp => rfl
  · intro e hurl hget
    simp only [VerifyRequest, hurl, hget]
  · intro resp e hurl hget hread
    simp only [VerifyRequest, hurl, hget, hread]

/-- Witness of C14 (amended): a transport error of the fetch is returned
as a fetch error. -/
theorem VerifyRequest_ignores_status_witness :
    VerifyRequest
        { testEnv 200 testCertificate with httpGet := fun _ => .error "connection refused" }
        (testRequest "AQID" ⟨[1, 2, 3], none⟩)
      = .ok ⟨some (.other ("could not fetch Amazon certificate: " ++ "connection refused")),
          testRequest "AQID" ⟨[1, 2, 3], none⟩⟩ :=
  (VerifyRequest_ignores_status
    { testEnv 200 testCertificate with httpGet := fun _ => .error "connection refused" }
    (testRequest "AQID" ⟨[1, 2, 3], none⟩) 200).2.1 "connection refused" (by decide) rfl

/-- C15: the gates of `VerifyRequest` run in the order URL policy, fetch,
PEM decoding, X.509 parsing, validity window, name check, signature, and
the error returned is that of the first gate that fails: each gate's error
is returned as soon as the gates before it have passed, whatever the later
gates would say. In particular a URL policy failure gives
`ErrInvalidCertificateURL` in every environment, and a certificate outside
its validity window gives `ErrAmazonCertificateExpired` whatever its names,
its key, the signature and the body. -/
theorem VerifyRequest_gate_order (env : Env) (r : HTTPRequest) :
    (verifyCertURL (headerGet r.Header "SignatureCertChainUrl") = .ok false →
      VerifyRequest env r = .ok ⟨some .ErrInvalidCertificateURL, r⟩) ∧
    (verifyCertURL (headerGet r.Header "SignatureCertChainUrl") = .ok true →
      (∀ e, env.httpGet (headerGet r.Header "SignatureCertChainUrl") = .error e →
        VerifyRequest env r
          = .ok ⟨some (.other ("could not fetch Amazon certificate: " ++ e)), r⟩) ∧
      (∀ resp, env.httpGet (headerGet r.Header "SignatureCertChainUrl") = .ok resp →
        (∀ e, resp.Body.readAll = .error e →
          VerifyRequest env r
            = .ok ⟨some (.other ("could not read response body: " ++ e)), r⟩) ∧
        (∀ contents, resp.Body.readAll = .ok contents →
          (env.pemDecode contents = none →
            VerifyRequest env r = .ok ⟨some .ErrFailedDecodingPEM, r⟩) ∧
          (∀ block, env.pemDecode contents = some block →
            (∀ e, env.parseCertificate block.Bytes = .error e →
              VerifyRequest env r
                = .ok ⟨some (.other ("could not parse certificate: " ++ e)), r⟩) ∧
            (∀ cert, env.parseCertificate block.Bytes = .ok cert →
              (((env.now 0).Unix < cert.NotBefore.Unix ∨
                  (env.now 1).Unix > cert.NotAfter.Unix) →
                VerifyRequest env r = .ok ⟨some .ErrAmazonCertificateExpired, r⟩) ∧
              (¬ ((env.now 0).Unix < cert.NotBefore.Unix ∨
                  (env.now 1).Unix > cert.NotAfter.Unix) →
                (foundName cert = false →
                  VerifyRequest env r = .ok ⟨some .ErrNameNotFound, r⟩) ∧
                (foundName cert = true →
                  VerifyRequest env r = verifySignature env r cert))))))) := by
  constructor
  · intro hurl
    simp only [VerifyRequest, hurl]
  · intro hurl
    constructor
    · intro e hget
      simp only [VerifyRequest, hurl, hget]
    · intro resp hget
      constructor
      · intro e hread
        simp only [VerifyRequest, hurl, hget, hread]
      · intro contents hread
        constructor
        · intro hpem
          simp only [VerifyRequest, hurl, hget, hread, hpem]
        · intro block hpem
          constructor
          · intro e hparse
            simp only [VerifyRequest, hurl, hget, hread, hpem, hparse]
          · intro cert hparse
            rw [VerifyRequest_of_parsed env r resp contents block cert hurl hget hread hpem
              hparse]
            unfold verifyCertificate
            constructor
            · intro hw
              simp only [hw, if_true]
            · intro hw
              simp only [hw, if_false]
              constructor
              · intro hn
                simp only [hn, Bool.not_false, if_true]
              · intro hn
                simp only [hn, Bool.not_true, Bool.false_eq_true, if_false]

/-- Witness of C15: an expired certificate that does not name the platform,
with a signature that does not verify, is rejected as expired, and a request
without certificate URL is rejected for its URL. -/
theorem VerifyRequest_gate_order_witness :
    VerifyRequest (testEnv 200 expiredCertificate) (testRequest "AAAA" ⟨[1, 2, 3], none⟩)
      = .ok ⟨some .ErrAmazonCertificateExpired, testRequest "AAAA" ⟨[1, 2, 3], none⟩⟩ ∧
    VerifyRequest (testEnv 200 testCertificate) { Header := [], Body := ⟨[1, 2, 3], none⟩ }
      = .ok ⟨some .ErrInvalidCertificateURL, { Header := [], Body := ⟨[1, 2, 3], none⟩ }⟩ :=
  ⟨((((((VerifyRequest_gate_order (testEnv 200 expiredCertificate)
      (testRequest "AAAA" ⟨[1, 2, 3], none⟩)).2 (by decide)).2
      { StatusCode := 200, Body := { data := [45, 45], fail := none } } rfl).2
      [45, 45] rfl).2 { Type_ := "CERTIFICATE", Bytes := [48] } rfl).2
      expiredCertificate rfl).1 (by decide),
   (VerifyRequest_gate_order (testEnv 200 testCertificate)
      { Header := [], Body := ⟨[1, 2, 3], none⟩ }).1 (by decide)⟩

/-- C16: for an event that `ParseRequest` accepts, `Application.Handler`
routes by request type: for `LaunchRequest`, `IntentRequest` and
`SessionEndedRequest` it calls the corresponding handler once, and no other,
with the parsed request and the response of `NewResponse`, and returns the
response the handler leaves, with no error; when that handler is nil it
calls nothing and returns the response of `NewResponse`; for every other
type it calls nothing and returns the error `invalid request type` with no
response. -/
theorem Handler_routes (a : Application) (decode : Reader → Decoded) (now : Time)
    (event : Bytes) (req : Alexa.Request)
    (h : ParseRequest decode now a.ID { data := event, fail := none }
      = .ok ⟨some req, none⟩) :
    (req.Type = "LaunchRequest" →
      (∀ f, a.LaunchHandler = some f → a.Handler decode now event
        = .ok ⟨some (f req NewResponse), none, [⟨.launch, req, NewResponse⟩]⟩) ∧
      (a.LaunchHandler = none →
        a.Handler decode now event = .ok ⟨some NewResponse, none, []⟩)) ∧
    (req.Type = "IntentRequest" →
      (∀ f, a.IntentHandler = some f → a.Handler decode now event
        = .ok ⟨some (f req NewResponse), none, [⟨.intent, req, NewResponse⟩]⟩) ∧
      (a.IntentHandler = none →
        a.Handler decode now event = .ok ⟨some NewResponse, none, []⟩)) ∧
    (req.Type = "SessionEndedRequest" →
      (∀ f, a.SessionEndedHandler = some f → a.Handler decode now event
        = .ok ⟨some (f req NewResponse), none, [⟨.sessionEnded, req, NewResponse⟩]⟩) ∧
      (a.SessionEndedHandler = none →
        a.Handler decode now event = .ok ⟨some NewResponse, none, []⟩)) ∧
    (req.Type ≠ "LaunchRequest" → req.Type ≠ "IntentRequest" →
      req.Type ≠ "SessionEndedRequest" →
      a.Handler decode now event
        = .ok ⟨none, some (.other "invalid request type"), []⟩) := by
  have hI : ("IntentRequest" : String) ≠ "LaunchRequest" := by decide
  have hS1 : ("SessionEndedRequest" : String) ≠ "LaunchRequest" := by decide
  have hS2 : ("SessionEndedRequest" : String) ≠ "IntentRequest" := by decide
  refine ⟨?_, ?_, ?_, ?_⟩
  · intro ht
    constructor
    · intro f hf
      simp only [Application.Handler, h, ht, if_true, invoke, hf]
    · intro hf
      simp only [Application.Handler, h, ht, if_true, invoke, hf]
  · intro ht
    constructor
    · intro f hf
      simp only [Application.Handler, h, ht, hI, if_false, if_true, invoke, hf]
    · intro hf
      simp only [Application.Handler, h, ht, hI, if_false, if_true, invoke, hf]
  · intro ht
    constructor
    · intro f hf
      simp only [Application.Handler, h, ht, hS1, hS2, if_false, if_true, invoke, hf]
    · intro hf
      simp only [Application.Handler, h, ht, hS1, hS2, if_false, if_true, invoke, hf]
  · intro h1 h2 h3
    simp only [Application.Handler, h, h1, h2, h3, if_false]

/-- Witness of C16: the launch request reaches the launch handler, once. -/
theorem Handler_routes_witness :
    testApplication.Handler (fun _ => ⟨some launchRequest, none⟩) testNow [1, 2, 3]
      = .ok ⟨some (NewResponse.OutputSpeech "hello"), none,
          [⟨.launch, launchRequest, NewResponse⟩]⟩ :=
  ((Handler_routes testApplication (fun _ => ⟨some launchRequest, none⟩) testNow [1, 2, 3]
    launchRequest (by decide)).1 rfl).1 (fun _ res => res.OutputSpeech "hello") rfl

/-- C17: `SlotValue` returns no error exactly when the slot map of the
intent has an entry under the name, and then returns the value of that
entry, also when the value is empty; otherwise it returns the empty string
and `ErrSlotNotFound`, in particular for a request with no intent and no
slot map. -/
theorem SlotValue_spec (r : Alexa.Request) (slotName : String) :
    ((r.SlotValue slotName).2 = none ↔ slotName ∈ r.Request.Intent.Slots.map Prod.fst) ∧
    (∀ v, (r.Request.Intent.Slots.map Prod.fst).Nodup →
      (slotName, v) ∈ r.Request.Intent.Slots → r.SlotValue slotName = (v.Value, none)) ∧
    (slotName ∉ r.Request.Intent.Slots.map Prod.fst →
      r.SlotValue slotName = ("", some .ErrSlotNotFound)) ∧
    Request.SlotValue {} slotName = ("", some .ErrSlotNotFound) ∧
    Request.SlotValue
      { Request := { Intent := { Slots := [("topic", { Name := "topic", Value := "" })] } } }
      "topic" = ("", none) := by
  have hiff := lookup_isSome_iff slotName r.Request.Intent.Slots
  refine ⟨?_, ?_, ?_, rfl, by decide⟩
  · unfold Request.SlotValue
    cases hl : r.Request.Intent.Slots.lookup slotName with
    | none =>
      rw [hl] at hiff
      simp only [Option.isSome_none, Bool.false_eq_true, false_iff] at hiff
      simp [hiff]
    | some v =>
      rw [hl] at hiff
      simp only [Option.isSome_some, true_iff] at hiff
      simp [hiff]
  · intro v hnd hmem
    unfold Request.SlotValue
    rw [lookup_of_mem slotName v _ hnd hmem]
  · intro hno
    unfold Request.SlotValue
    cases hl : r.Request.Intent.Slots.lookup slotName with
    | none => rfl
    | some v =>
      rw [hl] at hiff
      simp only [Option.isSome_some, true_iff] at hiff
      exact absurd hiff hno

/-- Witness of C17: the value of the only slot `topic` is returned. -/
theorem SlotValue_spec_witness :
    Request.SlotValue
      { Request := { Intent := { Slots := [("topic", { Name := "topic", Value := "go" })] } } }
      "topic" = ("go", none) :=
  (SlotValue_spec
    { Request := { Intent := { Slots := [("topic", { Name := "topic", Value := "go" })] } } }
    "topic").2.1 { Name := "topic", Value := "go" } (by decide) (by decide)

/-- C18: each response builder changes only its own part of the response
and returns the response it was called on: `OutputSpeech` and
`OutputSpeechSSML` replace the output speech, `Card`, `SimpleCard`,
`StandardCard` and `LinkAccountCard` replace the card (`Card` as
`SimpleCard`), `Reprompt` replaces the reprompt and `EndSession` sets
`ShouldEndSession`; `NewResponse` has version `1.0` and `ShouldEndSession`
true. -/
theorem builders_frame (r : Alexa.Response) (text title content smallImg largeImg : String)
    (flag : Bool) :
    (r.OutputSpeech text = { r with Response := { r.Response with
        OutputSpeech := some { Type_ := "PlainText", Text := text } } }) ∧
    (r.OutputSpeechSSML text = { r with Response := { r.Response with
        OutputSpeech := some { Type_ := "SSML", SSML := text } } }) ∧
    (r.SimpleCard title content = { r with Response := { r.Response with
        Card := some { Type_ := "Simple", Title := title, Content := content } } }) ∧
    (r.Card title content = r.SimpleCard title content) ∧
    (r.StandardCard title content smallImg largeImg = { r with Response := { r.Response with
        Card := some { Type_ := "Standard", Title := title, Content := content,
                       Image := { SmallImageURL := smallImg, LargeImageURL := largeImg } } } }) ∧
    (r.LinkAccountCard = { r with Response := { r.Response with
        Card := some { Type_ := "LinkAccount" } } }) ∧
    (r.Reprompt text = { r with Response := { r.Response with
        Reprompt := some { OutputSpeech := { Type_ := "PlainText", Text := text } } } }) ∧
    (r.EndSession flag = { r with Response := { r.Response with ShouldEndSession := flag } }) ∧
    (∀ b : Alexa.Response → Alexa.Response,
      b ∈ [fun x => x.OutputSpeech text, fun x => x.OutputSpeechSSML text,
           fun x => x.Card title content, fun x => x.SimpleCard title content,
           fun x => x.StandardCard title content smallImg largeImg,
           fun x => x.LinkAccountCard, fun x => x.Reprompt text] →
      (b r).Version = r.Version ∧ (b r).SessionAttributes = r.SessionAttributes ∧
      (b r).Response.ShouldEndSession = r.Response.ShouldEndSession) ∧
    ((r.EndSession flag).Version = r.Version ∧
      (r.EndSession flag).SessionAttributes = r.SessionAttributes ∧
      (r.EndSession flag).Response.Card = r.Response.Card ∧
      (r.EndSession flag).Response.OutputSpeech = r.Response.OutputSpeech ∧
      (r.EndSession flag).Response.Reprompt = r.Response.Reprompt) ∧
    NewResponse.Version = "1.0" ∧ NewResponse.Response.ShouldEndSession = true := by
  refine ⟨rfl, rfl, rfl, rfl, ?_, rfl, rfl, rfl, ?_, ⟨rfl, rfl, rfl, rfl, rfl⟩, rfl, rfl⟩
  · unfold Response.StandardCard
    by_cases hs : smallImg = "" <;> by_cases hl : largeImg = "" <;> simp [hs, hl]
  · intro b hb
    simp only [List.mem_cons, List.mem_singleton, List.not_mem_nil, or_false] at hb
    rcases hb with hb | hb | hb | hb | hb | hb | hb <;> subst hb <;> exact ⟨rfl, rfl, rfl⟩

/-- Witness of C18: a speech set on a new response leaves version and
session end as `NewResponse` set them. -/
theorem builders_frame_witness :
    (NewResponse.OutputSpeech "hello").Version = "1.0" ∧
    (NewResponse.OutputSpeech "hello").SessionAttributes = [] ∧
    (NewResponse.OutputSpeech "hello").Response.ShouldEndSession = true :=
  (builders_frame NewResponse "hello" "" "" "" "" true).2.2.2.2.2.2.2.2.1
    (fun x => x.OutputSpeech "hello") (by simp)

/-- C19 (counterexample): `verifyCertURL` accepts
`https://s3.amazonaws.com/echo.api/../other/cert.pem`, whose path with the
dot segments resolved is `/other/cert.pem`, outside `/echo.api/`. -/
theorem verifyCertURL_accepts_dot_segments :
    verifyCertURL "https://s3.amazonaws.com/echo.api/../other/cert.pem" = .ok true ∧
    urlParse "https://s3.amazonaws.com/echo.api/../other/cert.pem"
      = .ok { Scheme := "https", Host := "s3.amazonaws.com",
              Path := "/echo.api/../other/cert.pem" } ∧
    resolveDotSegments "/echo.api/../other/cert.pem" = "/other/cert.pem" ∧
    hasPrefixOf (resolveDotSegments "/echo.api/../other/cert.pem") "/echo.api/" = false := by
  refine ⟨by decide, by decide, by decide, by decide⟩

/-- C19 (amended): for every URL that `verifyCertURL` accepts, the path as
`url.Parse` returns it begins with `/echo.api/`, and the path obtained after
resolving its `.` and `..` segments still begins with `/echo.api/` whenever
the `..` segments of the part after `/echo.api/` never climb above that
directory, in particular whenever the path has no `..` segment. -/
theorem verifyCertURL_accepted_path (path : String) (h : verifyCertURL path = .ok true) :
    ∃ link, urlParse path = .ok link ∧ hasPrefixOf link.Path "/echo.api/" = true ∧
      (staysBelow 0 ((splitSlash link.Path.data).drop 2) = true →
        hasPrefixOf (resolveDotSegments link.Path) "/echo.api/" = true) ∧
      (['.', '.'] ∉ splitSlash link.Path.data →
        hasPrefixOf (resolveDotSegments link.Path) "/echo.api/" = true) := by
  cases hp : urlParse path with
  | error e =>
    unfold verifyCertURL at h
    rw [hp] at h
    cases h
  | ok link =>
    have hpre : hasPrefixOf link.Path "/echo.api/" = true :=
      ((verifyCertURL_spec_aux path link hp).mp h).2.2
    obtain ⟨tail, htail⟩ : ∃ tail,
        link.Path.data = ['/', 'e', 'c', 'h', 'o', '.', 'a', 'p', 'i', '/'] ++ tail := by
      unfold hasPrefixOf at hpre
      obtain ⟨tail, ht⟩ := List.isPrefixOf_iff_prefix.mp hpre
      exact ⟨tail, ht.symm⟩
    have hpath : link.Path = String.mk ("/echo.api/".data ++ tail) := by
      cases hq : link.Path with
      | mk data =>
        rw [hq] at htail
        simp only at htail
        rw [htail]
    have hstay : staysBelow 0 (splitSlash tail) = true →
        hasPrefixOf (resolveDotSegments link.Path) "/echo.api/" = true := by
      intro hs
      rw [hpath]
      exact resolve_stays tail hs
    refine ⟨link, rfl, hpre, ?_, ?_⟩
    · intro hs
      rw [htail, splitSlash_echo] at hs
      exact hstay hs
    · intro hno
      rw [htail, splitSlash_echo] at hno
      apply hstay
      apply staysBelow_of_no_dotdot
      intro hx
      exact hno (List.mem_cons_of_mem _ (List.mem_cons_of_mem _ hx))

/-- Witness of C19 (amended): the accepted URL with path
`/echo.api/a/../cert.pem`, whose `..` segment stays below `/echo.api/`,
resolves to a path that begins with `/echo.api/`. -/
theorem verifyCertURL_accepted_path_witness :
    verifyCertURL "https://s3.amazonaws.com/echo.api/a/../cert.pem" = .ok true ∧
    resolveDotSegments "/echo.api/a/../cert.pem" = "/echo.api/cert.pem" ∧
    hasPrefixOf (resolveDotSegments "/echo.api/a/../cert.pem") "/echo.api/" = true := by
  refine ⟨by decide, by decide, ?_⟩
  obtain ⟨link, hp, _, hstay, _⟩ :=
    verifyCertURL_accepted_path "https://s3.amazonaws.com/echo.api/a/../cert.pem" (by decide)
  have hlink : urlParse "https://s3.amazonaws.com/echo.api/a/../cert.pem"
      = .ok { Scheme := "https", Host := "s3.amazonaws.com",
              Path := "/echo.api/a/../cert.pem" } := by decide
  rw [hlink] at hp
  cases hp
  exact hstay (by decide)

end Alexa
